import Mathlib

/-!
Verification of the core event-processing engine of `playerstreamlit.py`:
playing-time reconstruction, position-stint tracking, percentile ranking,
per-96 normalization, and per-player percentage aggregates.  Every
definition below is a shallow embedding of the corresponding Python
function; Python floats are modelled as rationals and millisecond
timestamps as integers.
-/

namespace PlayerStreamlit

/-- Normalized event record: each field mirrors one key of the Python event
dict, with `none` standing for an absent key. -/
structure Event where
  baseTypeId : Option Int := none
  subTypeId : Option Int := none
  resultId : Option Int := none
  playerName : Option String := none
  positionTypeName : Option String := none
  teamName : Option String := none
  partId : Option Int := none
  startTimeMs : Option Int := none
  labels : List Int := []
deriving DecidableEq

/-- `event.get('startTimeMs', 0) or 0`. -/
def timeD (e : Event) : Int := e.startTimeMs.getD 0

/-- `event.get('partId', 1)`. -/
def partD (e : Event) : Int := e.partId.getD 1

/-- `event.get('playerName', '')`. -/
def playerD (e : Event) : String := e.playerName.getD ""

/-- `event.get('playerName', 'Unknown')` (used by the event collectors). -/
def playerU (e : Event) : String := e.playerName.getD "Unknown"

/-- `time_ms / 1000 / 60 if time_ms else 0`: both branches coincide with
plain division by 60000 over the rationals. -/
def minutesOfMs (ms : Int) : ℚ := Rat.divInt ms 60000

theorem minutesOfMs_eq (ms : Int) : minutesOfMs ms = (ms : ℚ) / 60000 :=
  Rat.divInt_eq_div ms 60000

/-- Minute value of an event, as computed throughout the Python code. -/
def minuteD (e : Event) : ℚ := minutesOfMs (timeD e)

/-! ### Percentile Ranker (Percentiles view), `calculate_percentile_rank` -/

/-- Embedding of `calculate_percentile_rank(values, target_value)`
(`src/playerstreamlit.py:1763-1777`): tie-aware rank percentile with a
neutral 50.0 for the empty cohort and a final clamp to `[0, 100]`. -/
def calculate_percentile_rank (values : List ℚ) (target_value : ℚ) : ℚ :=
  if values = [] then 50
  else
    let sorted_values := values.insertionSort (· ≤ ·)
    let count_below := sorted_values.countP (fun v => decide (v < target_value))
    let count_equal := sorted_values.countP (fun v => decide (v = target_value))
    let total_count := sorted_values.length
    if total_count = 0 then 50
    else
      let percentile := ((count_below : ℚ) + (1/2) * (count_equal : ℚ)) / (total_count : ℚ) * 100
      max 0 (min 100 percentile)

/-! ### Dashboard view percentile helper, `percentile_rank` -/

/-- Embedding of the Dashboard's `percentile_rank(values_list, target_value)`
(`src/playerstreamlit.py:1585-1590`): `100 * #{v ≤ target} / N`, with `0.0`
for an empty list. -/
def percentile_rank (values_list : List ℚ) (target_value : ℚ) : ℚ :=
  if values_list = [] then 0
  else 100 * (values_list.countP (fun v => decide (v ≤ target_value)) : ℚ) / (values_list.length : ℚ)

/-! ### Per-96 normalization -/

/-- The float literal `1e-9` used as the epsilon guard. -/
def EPS : ℚ := 1 / 1000000000

/-- Embedding of `get_value_per96(pstats, key)` (`src/playerstreamlit.py:1245-1248`),
abstracted over the raw value and the minutes-played entry it reads. -/
def get_value_per96 (value minutes_played : ℚ) : ℚ :=
  let minutes := max minutes_played EPS
  if 0 < minutes then value * (96 / minutes) else 0

/-- `key.endswith('_pct')` (suffix test on the character list). -/
def endsWithPy (key suffix : String) : Bool :=
  suffix.data.isSuffixOf key.data

/-- The percentage-key test of `value_per96`. -/
def isPctKey (key : String) : Bool :=
  endsWithPy key "_pct" || key = "air_duels_win_pct"

/-- Embedding of the Percentiles view's `value_per96(pstats, key)`
(`src/playerstreamlit.py:1740-1747`), abstracted over the `per96` flag, the
metric key, the raw value and the minutes-played entry. -/
def value_per96 (per96 : Bool) (key : String) (v minutes_played : ℚ) : ℚ :=
  if isPctKey key then v
  else if per96 then
    let minutes := max minutes_played EPS
    if 0 < minutes then v * (96 / minutes) else 0
  else v

/-! ### Counting helpers shared by the claim theorems -/

/-- `#{v ∈ l | v < t}` over the raw (unsorted) cohort. -/
def countBelow (l : List ℚ) (t : ℚ) : ℕ := l.countP (fun v => decide (v < t))

/-- `#{v ∈ l | v = t}` over the raw (unsorted) cohort. -/
def countEqual (l : List ℚ) (t : ℚ) : ℕ := l.countP (fun v => decide (v = t))

theorem countP_insertionSort (l : List ℚ) (p : ℚ → Bool) :
    (l.insertionSort (· ≤ ·)).countP p = l.countP p :=
  (List.perm_insertionSort (· ≤ ·) l).countP_eq p

theorem length_insertionSort (l : List ℚ) :
    (l.insertionSort (· ≤ ·)).length = l.length :=
  (List.perm_insertionSort (· ≤ ·) l).length_eq

/-- General closed form of `calculate_percentile_rank`: the tie-aware rank
formula over the raw (unsorted) cohort, clamped to `[0, 100]`. -/
theorem calculate_percentile_rank_eq (values : List ℚ) (target : ℚ) :
    calculate_percentile_rank values target =
      if values = [] then 50
      else max 0 (min 100
        (((countBelow values target : ℚ) + (1/2) * (countEqual values target : ℚ))
          / (values.length : ℚ) * 100)) := by
  by_cases h : values = []
  · simp [calculate_percentile_rank, h]
  · have hlen : (values.insertionSort (· ≤ ·)).length = values.length :=
      length_insertionSort values
    have hne : ¬ values.length = 0 := fun hc => h (List.length_eq_zero.mp hc)
    simp only [calculate_percentile_rank, h, if_false, countBelow, countEqual,
      countP_insertionSort, hlen]
    rw [if_neg hne]

/-- Claim C1: `calculate_percentile_rank` computes the tie-aware rank
percentile `(countStrictlyBelow + 0.5 · countEqual) / totalCount · 100`
clamped to `[0, 100]` on every non-empty cohort; cohort `[1,2,3]` with
target `1` yields `50/3 ≈ 16.7`, the all-tied cohort `[10,10,10]` with
target `10` yields exactly `50`, and the empty cohort yields exactly `50`
rather than an error. -/
theorem C1_percentile_rank_spec :
    (∀ values target, calculate_percentile_rank values target =
      if values = [] then 50
      else max 0 (min 100
        (((countBelow values target : ℚ) + (1/2) * (countEqual values target : ℚ))
          / (values.length : ℚ) * 100)))
    ∧ calculate_percentile_rank [1, 2, 3] 1 = 50 / 3
    ∧ calculate_percentile_rank [10, 10, 10] 10 = 50
    ∧ calculate_percentile_rank [] 0 = 50 := by
  refine ⟨calculate_percentile_rank_eq, ?_, ?_, rfl⟩
  · rw [calculate_percentile_rank]
    norm_num [List.insertionSort, List.orderedInsert]
    decide
  · rw [calculate_percentile_rank]
    norm_num [List.insertionSort, List.orderedInsert]

theorem countP_le_split (l : List ℚ) (t : ℚ) :
    l.countP (fun v => decide (v ≤ t)) = countBelow l t + countEqual l t := by
  induction l with
  | nil => rfl
  | cons x xs ih =>
    simp only [countBelow, countEqual, List.countP_cons] at ih ⊢
    rcases lt_trichotomy x t with h | h | h
    · simp [h, ne_of_lt h, le_of_lt h, ih]; omega
    · simp [h, ih]; omega
    · simp [not_le_of_lt h, ne_of_gt h, not_lt_of_gt h, ih]

/-- Claim C6 (counterexample): the Dashboard's `percentile_rank` and the
Percentiles view's `calculate_percentile_rank` disagree on cohort `[1,2,3]`
with target `1` (`100/3` versus `50/3`), so the program does not use a
single percentile formula. -/
theorem C6_two_formulas_counterexample :
    percentile_rank [1, 2, 3] 1 = 100 / 3
    ∧ calculate_percentile_rank [1, 2, 3] 1 = 50 / 3
    ∧ (100 / 3 : ℚ) ≠ 50 / 3
    ∧ percentile_rank [] 0 = 0
    ∧ calculate_percentile_rank [] 0 = 50 := by
  refine ⟨?_, ?_, by norm_num, rfl, rfl⟩
  · rw [percentile_rank]; norm_num; decide
  · rw [calculate_percentile_rank]
    norm_num [List.insertionSort, List.orderedInsert]
    decide

/-- Claim C6 (amended): the Dashboard view's `percentile_rank` agrees with
the Percentiles view's tie-aware `calculate_percentile_rank` exactly on
non-empty cohorts containing no value equal to the target; it diverges on
tied values (it counts ties fully instead of half) and on the empty cohort
(`0.0` instead of `50.0`). -/
theorem C6_agreement_without_ties (values : List ℚ) (target : ℚ)
    (hne : values ≠ []) (hties : countEqual values target = 0) :
    percentile_rank values target = calculate_percentile_rank values target := by
  have hN : 0 < (values.length : ℚ) := by
    have : 0 < values.length := List.length_pos.mpr hne
    exact_mod_cast this
  have hcb : countBelow values target ≤ values.length := List.countP_le_length _
  have hform := calculate_percentile_rank_eq values target
  rw [hform, if_neg hne, hties]
  rw [percentile_rank, if_neg hne, countP_le_split, hties]
  have hx : (0 : ℚ) ≤ (countBelow values target : ℚ) / (values.length : ℚ) * 100 :=
    mul_nonneg (div_nonneg (Nat.cast_nonneg _) (le_of_lt hN)) (by norm_num)
  have hx' : (countBelow values target : ℚ) / (values.length : ℚ) * 100 ≤ 100 := by
    have h1 : (countBelow values target : ℚ) / (values.length : ℚ) ≤ 1 :=
      (div_le_one hN).mpr (by exact_mod_cast hcb)
    nlinarith
  rw [Nat.cast_zero, add_zero, mul_zero, add_zero]
  rw [min_eq_right hx', max_eq_right hx]
  ring

/-- A closed instance of the claim C6 agreement theorem at the cohort
`[1, 3]` and target `2` (no tied values). -/
theorem C6_agreement_without_ties_witness :
    percentile_rank [1, 3] 2 = calculate_percentile_rank [1, 3] 2 :=
  C6_agreement_without_ties [1, 3] 2 (by decide) (by decide)

/-- Claim C8: with per-96 comparison requested, both per-96 helpers
normalize a (non-percentage) metric as `value · (96 / max(minutesPlayed, ε))`
with `ε = 1e-9 > 0`, so the guarded denominator is always positive and a
player with zero recorded minutes still yields a well-defined finite value. -/
theorem C8_per96_normalization (v minutes_played : ℚ) (key : String) :
    0 < max minutes_played EPS
    ∧ get_value_per96 v minutes_played = v * (96 / max minutes_played EPS)
    ∧ (isPctKey key = false →
        value_per96 true key v minutes_played = v * (96 / max minutes_played EPS)) := by
  have hpos : 0 < max minutes_played EPS :=
    lt_of_lt_of_le (by norm_num [EPS]) (le_max_right _ _)
  refine ⟨hpos, ?_, fun hk => ?_⟩
  · rw [get_value_per96]; simp only [if_pos hpos]
  · rw [value_per96, hk]; simp only [Bool.false_eq_true, if_false, if_true, if_pos hpos]

/-- Closed instance of the claim C8 theorem: the counting metric key `xG`
with zero recorded minutes yields the finite value `5 · 96 / ε`. -/
theorem C8_per96_normalization_witness :
    value_per96 true "xG" 5 0 = 5 * (96 / max 0 EPS) :=
  (C8_per96_normalization 5 0 "xG").2.2 (by decide)

/-! ### Per-player percentage aggregates (take-ons, air duels) -/

/-- Air-duel attempts credited to player `p`: events with `baseTypeId 4`,
`subTypeId 402`, any result (`find_events_by_type_subtype(all_events, 4, 402)`
feeding the `air_duels_total` accumulation, `src/playerstreamlit.py:981-1016`). -/
def airDuelTotalCount (events : List Event) (p : String) : ℕ :=
  events.countP (fun e =>
    decide (e.baseTypeId = some 4 ∧ e.subTypeId = some 402 ∧ playerU e = p))

/-- Air-duel wins credited to player `p`: same events restricted to
`resultId 1` (`find_events_by_type_subtype(all_events, 4, 402, 1)` feeding
`air_duels_won`, `src/playerstreamlit.py:1018-1053`). -/
def airDuelWonCount (events : List Event) (p : String) : ℕ :=
  events.countP (fun e =>
    decide (e.baseTypeId = some 4 ∧ e.subTypeId = some 402 ∧ e.resultId = some 1
      ∧ playerU e = p))

/-- `air_duels_win_pct` computation (`src/playerstreamlit.py:1129-1133`):
`100 · wins / total` when `total > 0`, else `0.0`. -/
def air_duels_win_pct (events : List Event) (p : String) : ℚ :=
  if 0 < airDuelTotalCount events p then
    100 * (airDuelWonCount events p : ℚ) / (airDuelTotalCount events p : ℚ)
  else 0

/-- Take-on attempts credited to player `p`: events carrying label `120`
(`find_takeon_events`, `src/playerstreamlit.py:167-182`, feeding
`takeons_total`). -/
def takeonTotalCount (events : List Event) (p : String) : ℕ :=
  events.countP (fun e => decide ((120 : Int) ∈ e.labels ∧ playerU e = p))

/-- Successful take-ons credited to player `p`: label-`120` events that also
carry the success label `121` (`is_successful`, feeding `takeons`). -/
def takeonSuccessCount (events : List Event) (p : String) : ℕ :=
  events.countP (fun e =>
    decide ((120 : Int) ∈ e.labels ∧ (121 : Int) ∈ e.labels ∧ playerU e = p))

/-- `takeon_success_pct` computation (`src/playerstreamlit.py:1166-1171`):
`(takeons / takeons_total) · 100` when the total is positive, else `0.0`. -/
def takeon_success_pct (events : List Event) (p : String) : ℚ :=
  if 0 < takeonTotalCount events p then
    ((takeonSuccessCount events p : ℚ) / (takeonTotalCount events p : ℚ)) * 100
  else 0

theorem pct_bounds_of_counts (w t : ℕ) (hwt : w ≤ t) :
    (0 ≤ if 0 < t then 100 * (w : ℚ) / (t : ℚ) else 0)
    ∧ ((if 0 < t then 100 * (w : ℚ) / (t : ℚ) else 0) ≤ 100) := by
  by_cases ht : 0 < t
  · have htq : 0 < (t : ℚ) := by exact_mod_cast ht
    have hwq : (w : ℚ) ≤ (t : ℚ) := by exact_mod_cast hwt
    constructor
    · rw [if_pos ht]
      positivity
    · rw [if_pos ht]
      rw [div_le_iff₀ htq]
      nlinarith
  · rw [if_neg ht]
    norm_num

/-- Claim C10: for every player aggregate, successful take-ons never exceed
take-on attempts and air-duel wins never exceed air-duel attempts (every
counted success is also counted as an attempt), the divisions are guarded by
an `attempts > 0` test with `0.0` for zero attempts, and both resulting
percentages always lie in `[0, 100]`. -/
theorem C10_percentage_guards (events : List Event) (p : String) :
    airDuelWonCount events p ≤ airDuelTotalCount events p
    ∧ takeonSuccessCount events p ≤ takeonTotalCount events p
    ∧ air_duels_win_pct events p =
        (if 0 < airDuelTotalCount events p then
          100 * (airDuelWonCount events p : ℚ) / (airDuelTotalCount events p : ℚ) else 0)
    ∧ takeon_success_pct events p =
        (if 0 < takeonTotalCount events p then
          100 * (takeonSuccessCount events p : ℚ) / (takeonTotalCount events p : ℚ) else 0)
    ∧ 0 ≤ air_duels_win_pct events p ∧ air_duels_win_pct events p ≤ 100
    ∧ 0 ≤ takeon_success_pct events p ∧ takeon_success_pct events p ≤ 100 := by
  have hduel : airDuelWonCount events p ≤ airDuelTotalCount events p := by
    apply List.countP_mono_left
    intro e _ h
    simp only [decide_eq_true_eq] at h ⊢
    exact ⟨h.1, h.2.1, h.2.2.2⟩
  have htake : takeonSuccessCount events p ≤ takeonTotalCount events p := by
    apply List.countP_mono_left
    intro e _ h
    simp only [decide_eq_true_eq] at h ⊢
    exact ⟨h.1, h.2.2⟩
  have hd := pct_bounds_of_counts (airDuelWonCount events p) (airDuelTotalCount events p) hduel
  have ht := pct_bounds_of_counts (takeonSuccessCount events p) (takeonTotalCount events p) htake
  have htk : takeon_success_pct events p =
      (if 0 < takeonTotalCount events p then
        100 * (takeonSuccessCount events p : ℚ) / (takeonTotalCount events p : ℚ) else 0) := by
    rw [takeon_success_pct]
    by_cases h : 0 < takeonTotalCount events p
    · rw [if_pos h, if_pos h]; ring
    · rw [if_neg h, if_neg h]
  exact ⟨hduel, htake, rfl, htk, hd.1, hd.2, htk ▸ ht.1, htk ▸ ht.2⟩

/-! ### Timeline Reconstructor: `calculate_player_minutes`
(`src/playerstreamlit.py:329-445`) -/

/-- One entry of the per-player `substitutions` list: `'in'`/`'out'` flag,
minute, and `partId`. -/
structure SubRec where
  isIn : Bool
  time : ℚ
  part : Int
deriving DecidableEq

/-- `period_starts[part]`: minute of the last `(14, 1400)` event for the
part (later dict assignments overwrite earlier ones), defaulting to `0`
for half 1 and `45` for half 2. -/
def periodStartOf (events : List Event) (part : Int) : ℚ :=
  match (events.filter (fun e =>
      decide (e.baseTypeId = some 14 ∧ e.subTypeId = some 1400 ∧ partD e = part))).getLast? with
  | some e => minuteD e
  | none => if part = 1 then 0 else 45

/-- `period_ends[part]`: minute of the last `(14, 1401)` event for the
part, defaulting to `45` for half 1 and `90` for half 2. -/
def periodEndOf (events : List Event) (part : Int) : ℚ :=
  match (events.filter (fun e =>
      decide (e.baseTypeId = some 14 ∧ e.subTypeId = some 1401 ∧ partD e = part))).getLast? with
  | some e => minuteD e
  | none => if part = 1 then 45 else 90

/-- The player's substitution records (`baseTypeId 16`, `subTypeId 1601`
for `'in'` / `1600` for `'out'`), in event order. -/
def subsOf (events : List Event) (player : String) : List SubRec :=
  events.filterMap (fun e =>
    if e.baseTypeId = some 16 ∧ playerD e = player then
      if e.subTypeId = some 1601 then some ⟨true, minuteD e, partD e⟩
      else if e.subTypeId = some 1600 then some ⟨false, minuteD e, partD e⟩
      else none
    else none)

/-- `player_subs.sort(key=lambda x: x['time'])` (stable ascending sort). -/
def sortedSubsOf (events : List Event) (player : String) : List SubRec :=
  List.insertionSort (fun a b => a.time ≤ b.time) (subsOf events player)

/-- `red_cards[player]`: `(minute, part)` of the last red-card event
(`baseTypeId 15`, `subTypeId 1501/1502`) carrying the player's name —
later events overwrite earlier ones in the dict. -/
def redOf (events : List Event) (player : String) : Option (ℚ × Int) :=
  ((events.filter (fun e =>
      decide (e.baseTypeId = some 15 ∧ (e.subTypeId = some 1501 ∨ e.subTypeId = some 1502)
        ∧ playerD e = player))).getLast?).map (fun e => (minuteD e, partD e))

/-- `player_entered`: the first `'in'` record for the part in the
time-sorted list, else `periodStart`. -/
def entryOf (events : List Event) (player : String) (part : Int) : ℚ :=
  match (sortedSubsOf events player).find? (fun s => s.isIn && decide (s.part = part)) with
  | some s => s.time
  | none => periodStartOf events part

/-- The first `'out'` record for the part strictly after the entry minute,
in the time-sorted list. -/
def outAfterOf (events : List Event) (player : String) (part : Int) (entry : ℚ) : Option ℚ :=
  ((sortedSubsOf events player).find? (fun s =>
    !s.isIn && decide (s.part = part) && decide (entry < s.time))).map (·.time)

/-- The red-card override test: same part, strictly after entry, and
earlier than the substitution exit when one exists. -/
def redBeats (rc : ℚ × Int) (part : Int) (entry : ℚ) (o : Option ℚ) : Bool :=
  decide (rc.2 = part) && decide (entry < rc.1) && o.elim true (fun t => decide (rc.1 < t))

/-- The optional exit event minute: substitution-out, overridden by an
earlier red card (`src/playerstreamlit.py:419-433`). -/
def exitOpt (events : List Event) (player : String) (part : Int) : Option ℚ :=
  match redOf events player with
  | some rc =>
      if redBeats rc part (entryOf events player part)
          (outAfterOf events player part (entryOf events player part)) then some rc.1
      else outAfterOf events player part (entryOf events player part)
  | none => outAfterOf events player part (entryOf events player part)

/-- `player_left`: the exit event minute, else `periodEnd`
(`src/playerstreamlit.py:435-437`). -/
def exitOf (events : List Event) (player : String) (part : Int) : ℚ :=
  match exitOpt events player part with
  | some t => t
  | none => periodEndOf events part

/-- Minutes credited for one half: `exit − entry` when positive
(`src/playerstreamlit.py:439-441`). -/
def halfMinutes (events : List Event) (player : String) (part : Int) : ℚ :=
  if entryOf events player part < exitOf events player part then
    exitOf events player part - entryOf events player part
  else 0

/-- `calculate_player_minutes(events)[player]`: total minutes over the two
halves (`for part_id in [1, 2]`). -/
def calculate_player_minutes (events : List Event) (player : String) : ℚ :=
  halfMinutes events player 1 + halfMinutes events player 2

/-! Spec-side notions used to characterise entry and exit. -/

/-- Minimum of a list of minutes with a default for the empty list. -/
def minQ : List ℚ → ℚ → ℚ
  | [], d => d
  | x :: xs, _ => xs.foldl min x

/-- All `subbed-in` minutes of the player within the half (event order). -/
def inMinutes (events : List Event) (player : String) (part : Int) : List ℚ :=
  (subsOf events player).filterMap (fun s =>
    if s.isIn = true ∧ s.part = part then some s.time else none)

/-- All `subbed-out` minutes of the player within the half that lie
strictly after the entry minute. -/
def outMinutesAfter (events : List Event) (player : String) (part : Int) (entry : ℚ) : List ℚ :=
  (subsOf events player).filterMap (fun s =>
    if s.isIn = false ∧ s.part = part ∧ entry < s.time then some s.time else none)

/-- The recorded red-card minute, when it falls in the half strictly after
the entry minute. -/
def redMinuteAfter (events : List Event) (player : String) (part : Int) (entry : ℚ) : List ℚ :=
  match redOf events player with
  | some rc => if rc.2 = part ∧ entry < rc.1 then [rc.1] else []
  | none => []

/-- Exit candidates: subbed-out minutes after entry plus the recorded
red-card minute after entry. -/
def exitCandidates (events : List Event) (player : String) (part : Int) (entry : ℚ) : List ℚ :=
  outMinutesAfter events player part entry ++ redMinuteAfter events player part entry

/-- All red-card minutes of the player within the half (the spec-side
notion; the code keeps only the last such event). -/
def redMinutesIn (events : List Event) (player : String) (part : Int) : List ℚ :=
  events.filterMap (fun e =>
    if e.baseTypeId = some 15 ∧ (e.subTypeId = some 1501 ∨ e.subTypeId = some 1502)
        ∧ playerD e = player ∧ partD e = part then
      some (minuteD e)
    else none)

theorem foldlMin_spec (xs : List ℚ) : ∀ x : ℚ,
    xs.foldl min x ∈ x :: xs ∧ xs.foldl min x ≤ x ∧ ∀ t ∈ xs, xs.foldl min x ≤ t := by
  induction xs with
  | nil => exact fun x => ⟨List.mem_cons_self x [], le_refl x, nofun⟩
  | cons y ys ih =>
    intro x
    obtain ⟨hmem, hlex, hall⟩ := ih (min x y)
    have hfold : (y :: ys).foldl min x = ys.foldl min (min x y) := rfl
    refine ⟨?_, ?_, ?_⟩
    · rw [hfold]
      rcases List.mem_cons.mp hmem with h | h
      · rcases min_choice x y with hc | hc
        · rw [h, hc]; exact List.mem_cons_self x (y :: ys)
        · rw [h, hc]; exact List.mem_cons_of_mem x (List.mem_cons_self y ys)
      · exact List.mem_cons_of_mem x (List.mem_cons_of_mem y h)
    · rw [hfold]; exact le_trans hlex (min_le_left x y)
    · intro t ht
      rw [hfold]
      rcases List.mem_cons.mp ht with h | h
      · rw [h]; exact le_trans hlex (min_le_right x y)
      · exact hall t h

theorem minQ_mem (l : List ℚ) (d : ℚ) (h : l ≠ []) : minQ l d ∈ l := by
  cases l with
  | nil => exact absurd rfl h
  | cons x xs => exact (foldlMin_spec xs x).1

theorem minQ_le (l : List ℚ) (d : ℚ) (t : ℚ) (ht : t ∈ l) : minQ l d ≤ t := by
  cases l with
  | nil => cases ht
  | cons x xs =>
    rcases List.mem_cons.mp ht with h | h
    · exact h ▸ (foldlMin_spec xs x).2.1
    · exact (foldlMin_spec xs x).2.2 t h

theorem minQ_eq_of (l : List ℚ) (d a : ℚ) (hmem : a ∈ l) (hlb : ∀ t ∈ l, a ≤ t) :
    minQ l d = a :=
  le_antisymm (minQ_le l d a hmem)
    (hlb _ (minQ_mem l d (fun hnil => by subst hnil; cases hmem)))

instance : IsTotal SubRec (fun a b => a.time ≤ b.time) :=
  ⟨fun a b => le_total a.time b.time⟩

instance : IsTrans SubRec (fun a b => a.time ≤ b.time) :=
  ⟨fun _ _ _ hab hbc => le_trans hab hbc⟩

theorem sortedSubsOf_sorted (events : List Event) (player : String) :
    (sortedSubsOf events player).Pairwise (fun a b => a.time ≤ b.time) :=
  List.sorted_insertionSort _ _

theorem sortedSubsOf_perm (events : List Event) (player : String) :
    List.Perm (sortedSubsOf events player) (subsOf events player) :=
  List.perm_insertionSort _ _

/-- In a list pairwise-sorted by time, a successful `find?` returns an
element whose time is minimal among all elements satisfying the
predicate. -/
theorem find?_sorted_min {α : Type} (key : α → ℚ) (P : α → Bool) :
    ∀ (l : List α), l.Pairwise (fun a b => key a ≤ key b) →
      ∀ x, l.find? P = some x → ∀ y ∈ l, P y = true → key x ≤ key y := by
  intro l
  induction l with
  | nil => intro _ x hx; cases hx
  | cons a as ih =>
    intro hp x hx y hy hPy
    by_cases hPa : P a = true
    · rw [List.find?_cons_of_pos _ hPa] at hx
      injection hx with hx
      subst hx
      rcases List.mem_cons.mp hy with h | h
      · subst h; exact le_refl _
      · exact (List.pairwise_cons.mp hp).1 y h
    · rw [List.find?_cons_of_neg _ hPa] at hx
      rcases List.mem_cons.mp hy with h | h
      · subst h; exact absurd hPy hPa
      · exact ih (List.pairwise_cons.mp hp).2 x hx y h hPy

/-- The code entry minute is the earliest subbed-in minute within the half,
else `periodStart`. -/
theorem entryOf_eq_minQ (events : List Event) (player : String) (part : Int) :
    entryOf events player part =
      minQ (inMinutes events player part) (periodStartOf events part) := by
  rw [entryOf]
  rcases hfind : (sortedSubsOf events player).find?
      (fun s => s.isIn && decide (s.part = part)) with _ | s
  · have hnone := List.find?_eq_none.mp hfind
    have hempty : inMinutes events player part = [] := by
      rw [inMinutes, List.filterMap_eq_nil_iff]
      intro s hs
      have hs' : s ∈ sortedSubsOf events player :=
        (sortedSubsOf_perm events player).mem_iff.mpr hs
      have := hnone s hs'
      rw [if_neg]
      intro ⟨h1, h2⟩
      exact this (by rw [h1]; simp [h2])
    rw [hfind, hempty]
    rfl
  · rw [hfind]
    have hP0 := List.find?_some hfind
    have hP : (s.isIn && decide (s.part = part)) = true := by
      simpa using hP0
    have hsmem : s ∈ sortedSubsOf events player := List.mem_of_find?_eq_some hfind
    rw [Bool.and_eq_true, decide_eq_true_eq] at hP
    have hmem : s.time ∈ inMinutes events player part := by
      rw [inMinutes, List.mem_filterMap]
      refine ⟨s, (sortedSubsOf_perm events player).mem_iff.mp hsmem, ?_⟩
      rw [if_pos ⟨hP.1, hP.2⟩]
    have hlb : ∀ t ∈ inMinutes events player part, s.time ≤ t := by
      intro t ht
      rw [inMinutes, List.mem_filterMap] at ht
      obtain ⟨u, hu, hut⟩ := ht
      by_cases hc : u.isIn = true ∧ u.part = part
      · rw [if_pos hc] at hut
        injection hut with hut
        subst hut
        exact find?_sorted_min (fun s => s.time) _ _
          (sortedSubsOf_sorted events player) s hfind u
          ((sortedSubsOf_perm events player).mem_iff.mpr hu)
          (by rw [hc.1]; simp [hc.2])
      · rw [if_neg hc] at hut; cases hut
    exact (minQ_eq_of _ _ _ hmem hlb).symm

/-- The successful substitution-out lookup is the earliest subbed-out
minute within the half strictly after entry. -/
theorem outAfterOf_some_min (events : List Event) (player : String) (part : Int) (entry t₀ : ℚ)
    (h : outAfterOf events player part entry = some t₀) :
    t₀ ∈ outMinutesAfter events player part entry
    ∧ ∀ t ∈ outMinutesAfter events player part entry, t₀ ≤ t := by
  rw [outAfterOf] at h
  rcases hfind : (sortedSubsOf events player).find?
      (fun s => !s.isIn && decide (s.part = part) && decide (entry < s.time)) with _ | s
  · rw [hfind] at h; cases h
  · rw [hfind] at h
    injection h with h
    subst h
    have hP0 := List.find?_some hfind
    have hP : (!s.isIn && decide (s.part = part) && decide (entry < s.time)) = true := by
      simpa using hP0
    have hsmem : s ∈ sortedSubsOf events player := List.mem_of_find?_eq_some hfind
    rw [Bool.and_eq_true, Bool.and_eq_true, Bool.not_eq_true', decide_eq_true_eq,
      decide_eq_true_eq] at hP
    constructor
    · rw [outMinutesAfter, List.mem_filterMap]
      refine ⟨s, (sortedSubsOf_perm events player).mem_iff.mp hsmem, ?_⟩
      rw [if_pos ⟨hP.1.1, hP.1.2, hP.2⟩]
    · intro t ht
      rw [outMinutesAfter, List.mem_filterMap] at ht
      obtain ⟨u, hu, hut⟩ := ht
      by_cases hc : u.isIn = false ∧ u.part = part ∧ entry < u.time
      · rw [if_pos hc] at hut
        injection hut with hut
        subst hut
        exact find?_sorted_min (fun s => s.time) _ _
          (sortedSubsOf_sorted events player) s hfind u
          ((sortedSubsOf_perm events player).mem_iff.mpr hu)
          (by rw [hc.1]; simp [hc.2.1, hc.2.2])
      · rw [if_neg hc] at hut; cases hut

/-- The failed substitution-out lookup means there is no subbed-out minute
within the half strictly after entry. -/
theorem outAfterOf_none_empty (events : List Event) (player : String) (part : Int) (entry : ℚ)
    (h : outAfterOf events player part entry = none) :
    outMinutesAfter events player part entry = [] := by
  rw [outAfterOf] at h
  rcases hfind : (sortedSubsOf events player).find?
      (fun s => !s.isIn && decide (s.part = part) && decide (entry < s.time)) with _ | s
  · have hnone := List.find?_eq_none.mp hfind
    rw [outMinutesAfter, List.filterMap_eq_nil_iff]
    intro s hs
    have hs' : s ∈ sortedSubsOf events player :=
      (sortedSubsOf_perm events player).mem_iff.mpr hs
    have := hnone s hs'
    rw [if_neg]
    intro ⟨h1, h2, h3⟩
    exact this (by rw [h1]; simp [h2, h3])
  · rw [hfind] at h; cases h

theorem redBeats_true_iff (rc : ℚ × Int) (part : Int) (entry : ℚ) (o : Option ℚ) :
    redBeats rc part entry o = true ↔
      rc.2 = part ∧ entry < rc.1 ∧ ∀ t, o = some t → rc.1 < t := by
  cases o with
  | none => simp [redBeats, Option.elim]
  | some t => simp [redBeats, Option.elim, and_assoc]

theorem exitOf_val_noRed_noOut (events : List Event) (player : String) (part : Int)
    (h1 : redOf events player = none)
    (h2 : outAfterOf events player part (entryOf events player part) = none) :
    exitOf events player part = periodEndOf events part := by
  simp only [exitOf, exitOpt, h1, h2]

theorem exitOf_val_noRed_out (events : List Event) (player : String) (part : Int) (t₀ : ℚ)
    (h1 : redOf events player = none)
    (h2 : outAfterOf events player part (entryOf events player part) = some t₀) :
    exitOf events player part = t₀ := by
  simp only [exitOf, exitOpt, h1, h2]

theorem exitOf_val_red_beats (events : List Event) (player : String) (part : Int) (rc : ℚ × Int)
    (h1 : redOf events player = some rc)
    (hb : redBeats rc part (entryOf events player part)
      (outAfterOf events player part (entryOf events player part)) = true) :
    exitOf events player part = rc.1 := by
  simp only [exitOf, exitOpt, h1, hb, if_true]

theorem exitOf_val_red_noBeats_noOut (events : List Event) (player : String) (part : Int)
    (rc : ℚ × Int) (h1 : redOf events player = some rc)
    (hb : redBeats rc part (entryOf events player part)
      (outAfterOf events player part (entryOf events player part)) = false)
    (h2 : outAfterOf events player part (entryOf events player part) = none) :
    exitOf events player part = periodEndOf events part := by
  rw [h2] at hb
  simp only [exitOf, exitOpt, h1, h2, hb, Bool.false_eq_true, if_false]

theorem exitOf_val_red_noBeats_out (events : List Event) (player : String) (part : Int)
    (rc : ℚ × Int) (t₀ : ℚ) (h1 : redOf events player = some rc)
    (hb : redBeats rc part (entryOf events player part)
      (outAfterOf events player part (entryOf events player part)) = false)
    (h2 : outAfterOf events player part (entryOf events player part) = some t₀) :
    exitOf events player part = t₀ := by
  rw [h2] at hb
  simp only [exitOf, exitOpt, h1, h2, hb, Bool.false_eq_true, if_false]

/-- The code exit minute is the earliest of the exit candidates (subbed-out
minutes after entry, the recorded red-card minute after entry), else
`periodEnd`. -/
theorem exitOf_eq_minQ (events : List Event) (player : String) (part : Int) :
    exitOf events player part =
      minQ (exitCandidates events player part (entryOf events player part))
        (periodEndOf events part) := by
  set entry := entryOf events player part with hentry
  rcases hred : redOf events player with _ | rc
  · -- no red card: candidates are exactly the outs after entry
    have hcand : exitCandidates events player part entry =
        outMinutesAfter events player part entry := by
      simp only [exitCandidates, redMinuteAfter, hred, List.append_nil]
    rcases hout : outAfterOf events player part entry with _ | t₀
    · rw [exitOf_val_noRed_noOut events player part hred hout, hcand,
        outAfterOf_none_empty events player part entry hout]
      rfl
    · obtain ⟨hmem, hlb⟩ := outAfterOf_some_min events player part entry t₀ hout
      rw [exitOf_val_noRed_out events player part t₀ hred hout, hcand]
      exact (minQ_eq_of _ _ _ hmem hlb).symm
  · rcases hbeats : redBeats rc part entry (outAfterOf events player part entry) with _ | _
    · -- red card does not override the exit
      have hnotbeats : ¬ (rc.2 = part ∧ entry < rc.1
          ∧ ∀ t, outAfterOf events player part entry = some t → rc.1 < t) := by
        intro hc
        rw [(redBeats_true_iff rc part entry _).mpr hc] at hbeats
        cases hbeats
      rcases hout : outAfterOf events player part entry with _ | t₀
      · -- no out event: the red-card part/entry test must have failed
        have hredempty : redMinuteAfter events player part entry = [] := by
          simp only [redMinuteAfter, hred]
          rw [if_neg]
          intro ⟨h1, h2⟩
          exact hnotbeats ⟨h1, h2, fun t ht => by rw [hout] at ht; cases ht⟩
        rw [exitOf_val_red_noBeats_noOut events player part rc hred hbeats hout,
          exitCandidates, hredempty, List.append_nil,
          outAfterOf_none_empty events player part entry hout]
        rfl
      · obtain ⟨hmem, hlb⟩ := outAfterOf_some_min events player part entry t₀ hout
        rw [exitOf_val_red_noBeats_out events player part rc t₀ hred hbeats hout]
        refine (minQ_eq_of _ _ _ ?_ ?_).symm
        · rw [exitCandidates]
          exact List.mem_append_left _ hmem
        · intro t ht
          rw [exitCandidates, List.mem_append] at ht
          rcases ht with ht | ht
          · exact hlb t ht
          · simp only [redMinuteAfter, hred] at ht
            by_cases hc : rc.2 = part ∧ entry < rc.1
            · rw [if_pos hc] at ht
              have hteq : t = rc.1 := List.mem_singleton.mp ht
              subst hteq
              -- the red card did not beat the out: t₀ ≤ rc.1 = t
              by_contra hlt
              push_neg at hlt
              exact hnotbeats ⟨hc.1, hc.2, fun u hu => by
                rw [hout] at hu; injection hu with hu; exact hu ▸ hlt⟩
            · rw [if_neg hc] at ht; cases ht
    · -- red card overrides: it is the minimum candidate
      obtain ⟨hpart, hafter, hbeat⟩ := (redBeats_true_iff rc part entry _).mp hbeats
      rw [exitOf_val_red_beats events player part rc hred hbeats]
      refine (minQ_eq_of _ _ _ ?_ ?_).symm
      · simp only [exitCandidates, redMinuteAfter, hred]
        rw [if_pos ⟨hpart, hafter⟩]
        exact List.mem_append_right _ (List.mem_singleton.mpr rfl)
      · intro t ht
        rw [exitCandidates, List.mem_append] at ht
        rcases ht with ht | ht
        · rcases hout : outAfterOf events player part entry with _ | t₀
          · rw [outAfterOf_none_empty events player part entry hout] at ht; cases ht
          · obtain ⟨_, hlb⟩ := outAfterOf_some_min events player part entry t₀ hout
            have hrt : rc.1 < t₀ := hbeat t₀ hout
            exact le_of_lt (lt_of_lt_of_le hrt (hlb t ht))
        · simp only [redMinuteAfter, hred] at ht
          rw [if_pos ⟨hpart, hafter⟩] at ht
          exact (List.mem_singleton.mp ht) ▸ le_refl _

theorem mem_inMinutes_subsOf (events : List Event) (player : String) (part : Int) (t : ℚ)
    (ht : t ∈ inMinutes events player part) :
    ∃ s ∈ subsOf events player, s.part = part ∧ s.time = t := by
  rw [inMinutes, List.mem_filterMap] at ht
  obtain ⟨s, hs, hst⟩ := ht
  by_cases hc : s.isIn = true ∧ s.part = part
  · rw [if_pos hc] at hst
    injection hst with hst
    exact ⟨s, hs, hc.2, hst⟩
  · rw [if_neg hc] at hst; cases hst

theorem mem_exitCandidates_cases (events : List Event) (player : String) (part : Int)
    (entry t : ℚ) (ht : t ∈ exitCandidates events player part entry) :
    (∃ s ∈ subsOf events player, s.part = part ∧ s.time = t)
    ∨ (∃ rc, redOf events player = some rc ∧ rc.2 = part ∧ rc.1 = t) := by
  rw [exitCandidates, List.mem_append] at ht
  rcases ht with ht | ht
  · left
    rw [outMinutesAfter, List.mem_filterMap] at ht
    obtain ⟨s, hs, hst⟩ := ht
    by_cases hc : s.isIn = false ∧ s.part = part ∧ entry < s.time
    · rw [if_pos hc] at hst
      injection hst with hst
      exact ⟨s, hs, hc.2.1, hst⟩
    · rw [if_neg hc] at hst; cases hst
  · right
    rcases hred : redOf events player with _ | rc
    · rw [redMinuteAfter, hred] at ht
      simp only [List.not_mem_nil] at ht
    · by_cases hc : rc.2 = part ∧ entry < rc.1
      · have ht' : t ∈ [rc.1] := by
          rw [redMinuteAfter, hred] at ht
          simpa [hc] using ht
        exact ⟨rc, rfl, hc.1, (List.mem_singleton.mp ht').symm⟩
      · exfalso
        rw [redMinuteAfter, hred] at ht
        simp [hc] at ht

/-- Claim C2 (amended): per player and per half, the entry minute is the
earliest subbed-in minute within that half, else `periodStart`; the exit
minute is the earliest of the subbed-out minutes strictly after entry and
the player's recorded red-card minute strictly after entry (when a player
has several red-card events the code records only the last one in input
order), else `periodEnd`; and minutes are credited for the half exactly
when `exit > entry`, as `exit − entry`. -/
theorem C2_entry_exit_characterization (events : List Event) (player : String) (part : Int) :
    entryOf events player part =
      minQ (inMinutes events player part) (periodStartOf events part)
    ∧ exitOf events player part =
      minQ (exitCandidates events player part (entryOf events player part))
        (periodEndOf events part)
    ∧ halfMinutes events player part =
        (if entryOf events player part < exitOf events player part then
          exitOf events player part - entryOf events player part else 0)
    ∧ calculate_player_minutes events player =
        halfMinutes events player 1 + halfMinutes events player 2 :=
  ⟨entryOf_eq_minQ events player part, exitOf_eq_minQ events player part, rfl, rfl⟩

/-- Two red-card events for the same player in half 1 (minute 10 and
minute 80, in that input order). -/
def exC2 : List Event :=
  [{ baseTypeId := some 15, subTypeId := some 1501, playerName := some "P",
     partId := some 1, startTimeMs := some 600000 },
   { baseTypeId := some 15, subTypeId := some 1501, playerName := some "P",
     partId := some 1, startTimeMs := some 4800000 }]

/-- Claim C2 (counterexample): with two red-card events for the player in
half 1 at minutes 10 and 80, the code's exit minute is 80 (the last
red-card event in input order), not the earliest red-card minute strictly
after entry (which is 10): the dict `red_cards[player]` keeps only the
last red-card event. -/
theorem C2_red_card_counterexample :
    redMinutesIn exC2 "P" 1 = [10, 80]
    ∧ entryOf exC2 "P" 1 = 0
    ∧ exitOf exC2 "P" 1 = 80
    ∧ (10 : ℚ) ∈ redMinutesIn exC2 "P" 1
    ∧ entryOf exC2 "P" 1 < 10
    ∧ (10 : ℚ) < exitOf exC2 "P" 1 := by
  decide

/-- A single subbed-out event for player `A` in half 1 at minute 100,
beyond the default period boundaries `(0, 45)`. -/
def exC3 : List Event :=
  [{ baseTypeId := some 16, subTypeId := some 1600, playerName := some "A",
     partId := some 1, startTimeMs := some 6000000 }]

/-- Claim C3 (counterexample): with a subbed-out event at minute 100 inside
half 1 (whose default boundaries are `(0, 45)`), the credited interval is
100 minutes, exceeding the half's duration of 45 minutes: the claim fails
for event lists whose substitution timestamps lie outside the period
boundaries. -/
theorem C3_interval_exceeds_half_counterexample :
    halfMinutes exC3 "A" 1 = 100
    ∧ periodEndOf exC3 1 - periodStartOf exC3 1 = 45
    ∧ ¬(halfMinutes exC3 "A" 1 ≤ periodEndOf exC3 1 - periodStartOf exC3 1) := by
  have he : entryOf exC3 "A" 1 = 0 := by decide
  have hx : exitOf exC3 "A" 1 = 100 := by decide
  have hps : periodStartOf exC3 1 = 0 := by decide
  have hpe : periodEndOf exC3 1 = 45 := by decide
  rw [halfMinutes, he, hx, hps, hpe]
  norm_num

/-- Claim C3 (amended): per player and per half, when every substitution
minute of the player within the half and the recorded red-card minute
within the half lie inside `[periodStart, periodEnd]`, the credited
interval never exceeds the half's duration (`max` with 0 covers halves of
non-positive duration, where nothing positive is credited). -/
theorem C3_half_credit_bounded (events : List Event) (player : String) (part : Int)
    (hsub : ∀ s ∈ subsOf events player, s.part = part →
      periodStartOf events part ≤ s.time ∧ s.time ≤ periodEndOf events part)
    (hred : ∀ rc, redOf events player = some rc → rc.2 = part →
      periodStartOf events part ≤ rc.1 ∧ rc.1 ≤ periodEndOf events part) :
    halfMinutes events player part ≤ max (periodEndOf events part - periodStartOf events part) 0 := by
  have hen : periodStartOf events part ≤ entryOf events player part := by
    rw [entryOf_eq_minQ]
    rcases hin : inMinutes events player part with _ | ⟨x, xs⟩
    · exact le_refl _
    · have hmem : minQ (x :: xs) (periodStartOf events part) ∈ x :: xs :=
        minQ_mem _ _ (List.cons_ne_nil x xs)
      rw [← hin] at hmem
      obtain ⟨s, hs, hpart, htime⟩ := mem_inMinutes_subsOf events player part _ hmem
      rw [hin] at htime
      exact htime ▸ (hsub s hs hpart).1
  have hex : exitOf events player part ≤ periodEndOf events part := by
    rw [exitOf_eq_minQ]
    rcases hc : exitCandidates events player part (entryOf events player part) with _ | ⟨x, xs⟩
    · exact le_refl _
    · have hmem : minQ (x :: xs) (periodEndOf events part) ∈ x :: xs :=
        minQ_mem _ _ (List.cons_ne_nil x xs)
      rw [← hc] at hmem
      rcases mem_exitCandidates_cases events player part _ _ hmem with
        ⟨s, hs, hpart, htime⟩ | ⟨rc, hrc, hpart, htime⟩
      · rw [hc] at htime
        exact htime ▸ (hsub s hs hpart).2
      · rw [hc] at htime
        exact htime ▸ (hred rc hrc hpart).2
  rw [halfMinutes]
  by_cases hlt : entryOf events player part < exitOf events player part
  · rw [if_pos hlt]
    exact le_trans (by linarith) (le_max_left _ _)
  · rw [if_neg hlt]
    exact le_max_right _ _

/-- A subbed-in event for player `A` in half 1 at minute 10, within the
default period boundaries. -/
def exC3W : List Event :=
  [{ baseTypeId := some 16, subTypeId := some 1601, playerName := some "A",
     partId := some 1, startTimeMs := some 600000 }]

/-- Closed instance of the claim C3 theorem: a player subbed in at minute
10 of half 1 is credited at most the half's 45 minutes. -/
theorem C3_half_credit_bounded_witness :
    halfMinutes exC3W "A" 1 ≤ max (periodEndOf exC3W 1 - periodStartOf exC3W 1) 0 := by
  refine C3_half_credit_bounded exC3W "A" 1 (by decide) ?_
  intro rc hrc
  have hnone : redOf exC3W "A" = none := by decide
  rw [hnone] at hrc
  cases hrc

/-! ### Position Tracker: `calculate_primary_positions_across_matches`
(`src/playerstreamlit.py:487-587`) -/

/-- Python's `str.strip()`: remove leading and trailing whitespace. -/
def pyStrip (s : String) : String :=
  String.mk (((s.data.dropWhile Char.isWhitespace).reverse.dropWhile Char.isWhitespace).reverse)

/-- Python's `str.upper()` (ASCII upcasing, as used for position codes). -/
def pyUpper (s : String) : String := String.mk (s.data.map Char.toUpper)

/-- `POSITION_MAP_NL` (`src/playerstreamlit.py:448-478`). -/
def POSITION_MAP_NL : List (String × String) :=
  [("GK", "DM"), ("LB", "LV"), ("LWB", "LVV"), ("LCB", "CV"), ("CB", "CV"),
   ("RCB", "CV"), ("RWB", "RVV"), ("RB", "RV"), ("LDMF", "VM"), ("DMF", "VM"),
   ("RDMF", "VM"), ("LCMF", "CM"), ("CMF", "CM"), ("RCMF", "CM"), ("LCM", "CM"),
   ("CM", "CM"), ("RCM", "CM"), ("LW", "LB"), ("RW", "RB"), ("LWF", "LB"),
   ("RWF", "RB"), ("LAMF", "LB"), ("RAMF", "RB"), ("AMF", "AM"), ("LCF", "SP"),
   ("RCF", "SP"), ("CF", "SP"), ("RM", "RM"), ("LM", "LM")]

/-- `map_position_to_nl` (`src/playerstreamlit.py:480-484`). -/
def map_position_to_nl (raw : String) : String :=
  if raw = "" then raw
  else (POSITION_MAP_NL.lookup (pyUpper (pyStrip raw))).getD raw

/-- A tracked stint: `(position_name, start_time)`, `none` meaning the
stint is suspended across a period boundary. -/
abbrev Stint := String × Option Int

/-- `current_player_position`: insertion-ordered association list, the
shallow embedding of the Python dict. -/
abbrev PosState := List (String × Stint)

/-- `player_position_durations_ms`: association list keyed by
`(player, position)` with accumulated millisecond totals. -/
abbrev Durs := List ((String × String) × Int)

/-- `defaultdict` read-modify-write: add `v` to the entry at `k`
(initialised to 0), keeping dict insertion order. -/
def addDur : Durs → String × String → Int → Durs
  | [], k, v => [(k, v)]
  | (k', v') :: rest, k, v =>
      if k' = k then (k', v' + v) :: rest else (k', v') :: addDur rest k v

/-- Dict assignment `state[p] = stint`: replace in place or append. -/
def setStint : PosState → String → Stint → PosState
  | [], p, stint => [(p, stint)]
  | (q, stint') :: rest, p, stint =>
      if q = p then (q, stint) :: rest else (q, stint') :: setStint rest p stint

/-- Dict deletion `del state[p]`. -/
def removeStint (st : PosState) (p : String) : PosState :=
  st.filter (fun kv => !(decide (kv.1 = p)))

/-- The name/position validity gate of the position-update branch
(`src/playerstreamlit.py:527`): the player name must be present, non-blank,
not a placeholder and not whitespace-only, and the position label present,
non-blank and not `'UNKNOWN'`. -/
def validPosEvent (e : Event) : Bool :=
  decide (e.playerName ≠ none) && decide (e.playerName ≠ some "")
    && decide (e.playerName ≠ some "NOT_APPLICABLE")
    && decide (e.playerName ≠ some "Unknown")
    && decide (pyStrip (e.playerName.getD "") ≠ "")
    && decide (e.positionTypeName ≠ none) && decide (e.positionTypeName ≠ some "")
    && decide (e.positionTypeName ≠ some "UNKNOWN")

/-- Close one state entry at time `t`: accumulate its elapsed duration
when the stint is active and the duration positive. -/
def closeEntry (t : Int) (d : Durs) (kv : String × Stint) : Durs :=
  match kv.2.2 with
  | some s => if 0 < t - s then addDur d (kv.1, kv.2.1) (t - s) else d
  | none => d

/-- Close every active stint at time `t` (period-end / end-of-match). -/
def closeAll (d : Durs) (st : PosState) (t : Int) : Durs :=
  st.foldl (closeEntry t) d

/-- One iteration of the tracker loop over a filtered, sorted event
(`src/playerstreamlit.py:518-567`). -/
def stepTrack (acc : Durs × PosState) (e : Event) : Durs × PosState :=
  let t := timeD e
  let d := acc.1
  let st := acc.2
  if e.baseTypeId = some 18 ∧ (e.subTypeId = some 1800 ∨ e.subTypeId = some 1801) then
    if validPosEvent e then
      let pn := e.playerName.getD ""
      let mapped := map_position_to_nl (e.positionTypeName.getD "")
      let d' :=
        match st.lookup pn with
        | some (prevPos, some s0) => if 0 < t - s0 then addDur d (pn, prevPos) (t - s0) else d
        | _ => d
      (d', setStint st pn (mapped, some t))
    else (d, st)
  else if e.baseTypeId = some 14 ∧ e.subTypeId = some 1400 then
    (d, st.map (fun kv => if kv.2.2 = none then (kv.1, (kv.2.1, some t)) else kv))
  else if e.baseTypeId = some 14 ∧ e.subTypeId = some 1401 then
    (closeAll d st t, st.map (fun kv => (kv.1, (kv.2.1, (none : Option Int)))))
  else if e.baseTypeId = some 16 ∧ e.subTypeId = some 1600 then
    match e.playerName with
    | some pn =>
        if pn ≠ "" then
          match st.lookup pn with
          | some stint => (closeEntry t d (pn, stint), removeStint st pn)
          | none => (d, st)
        else (d, st)
    | none => (d, st)
  else (d, st)

/-- The event filter keeping position updates, period markers and
substitutions (`src/playerstreamlit.py:506-511`). -/
def isTracked (e : Event) : Bool :=
  (decide (e.baseTypeId = some 18)
      && (decide (e.subTypeId = some 1800) || decide (e.subTypeId = some 1801)))
    || (decide (e.baseTypeId = some 14)
      && (decide (e.subTypeId = some 1400) || decide (e.subTypeId = some 1401)))
    || (decide (e.baseTypeId = some 16)
      && (decide (e.subTypeId = some 1600) || decide (e.subTypeId = some 1601)))

/-- `position_and_period_events.sort(key=...)`: stable ascending sort of
the filtered events by `startTimeMs` (`src/playerstreamlit.py:512`). -/
def sortTrack (events : List Event) : List Event :=
  List.insertionSort (fun a b => timeD a ≤ timeD b) (events.filter isTracked)

instance : IsTotal Event (fun a b => timeD a ≤ timeD b) :=
  ⟨fun a b => le_total (timeD a) (timeD b)⟩

instance : IsTrans Event (fun a b => timeD a ≤ timeD b) :=
  ⟨fun _ _ _ hab hbc => le_trans hab hbc⟩

/-- One match of the tracker: fold the transitions over the sorted
filtered events, then close still-open stints at the time of the last
processed event (`src/playerstreamlit.py:503-577`). -/
def processMatch (d₀ : Durs) (events : List Event) : Durs :=
  let L := sortTrack events
  let acc := L.foldl stepTrack (d₀, ([] : PosState))
  match L.getLast? with
  | some elast => closeAll acc.1 acc.2 (timeD elast)
  | none => acc.1

/-- The outer loop over all matches, accumulating durations. -/
def processMatches (allMatches : List (List Event)) : Durs :=
  allMatches.foldl processMatch []

/-- Accumulated duration for one `(player, position)` key. -/
def durOf (d : Durs) (k : String × String) : Int := (d.lookup k).getD 0

/-- Total accumulated stint duration of one player across all positions. -/
def dursTotal (d : Durs) (p : String) : Int :=
  ((d.filter (fun kv => decide (kv.1.1 = p))).map (fun kv => kv.2)).sum

/-- Claim C9: a position-update event whose player name is blank, a
placeholder (`'NOT_APPLICABLE'`/`'Unknown'`), or whitespace-only, or whose
position label is absent, blank, or the placeholder `'UNKNOWN'`, is
ignored by the tracker: the step leaves durations and state unchanged. -/
theorem C9_invalid_position_update_ignored (d : Durs) (st : PosState) (e : Event)
    (hbase : e.baseTypeId = some 18)
    (hsub : e.subTypeId = some 1800 ∨ e.subTypeId = some 1801)
    (hbad : e.playerName = none ∨ e.playerName = some "" ∨ e.playerName = some "NOT_APPLICABLE"
      ∨ e.playerName = some "Unknown" ∨ (∃ pn, e.playerName = some pn ∧ pyStrip pn = "")
      ∨ e.positionTypeName = none ∨ e.positionTypeName = some ""
      ∨ e.positionTypeName = some "UNKNOWN") :
    stepTrack (d, st) e = (d, st) := by
  have hvalid : validPosEvent e = false := by
    rcases hbad with h | h | h | h | ⟨pn, hpn, hstrip⟩ | h | h | h <;>
      simp [validPosEvent, *]
  rw [stepTrack]
  rw [if_pos ⟨hbase, hsub⟩, hvalid]
  simp

/-- Closed instance of the claim C9 theorem: a position update naming the
placeholder `'NOT_APPLICABLE'` leaves a non-trivial tracker state
untouched. -/
theorem C9_invalid_position_update_ignored_witness :
    stepTrack ([((("Q", "CV") : String × String), (5 : Int))],
        [("Q", (("CV" : String), some (3 : Int)))])
      { baseTypeId := some 18, subTypeId := some 1800,
        playerName := some "NOT_APPLICABLE", positionTypeName := some "CV",
        startTimeMs := some 100 }
      = ([((("Q", "CV") : String × String), (5 : Int))],
        [("Q", (("CV" : String), some (3 : Int)))]) := by
  exact C9_invalid_position_update_ignored _ _ _ rfl (Or.inl rfl) (Or.inr (Or.inr (Or.inl rfl)))

/-! Association-list lemmas for the tracker state and durations. -/

/-- The elapsed-duration contribution of one stint closed at time `t`. -/
def contrib (t : Int) (stint : Stint) : Int :=
  match stint.2 with
  | some s => if 0 < t - s then t - s else 0
  | none => 0

theorem lookup_setStint_self (st : PosState) (p : String) (v : Stint) :
    (setStint st p v).lookup p = some v := by
  induction st with
  | nil => simp [setStint]
  | cons kv rest ih =>
    obtain ⟨q, stint⟩ := kv
    by_cases h : q = p
    · subst h; simp [setStint]
    · simp [setStint, h, List.lookup, beq_false_of_ne (Ne.symm h), ih]

theorem lookup_setStint_other (st : PosState) (p q : String) (v : Stint) (h : q ≠ p) :
    (setStint st p v).lookup q = st.lookup q := by
  induction st with
  | nil => simp [setStint, List.lookup, beq_false_of_ne h]
  | cons kv rest ih =>
    obtain ⟨r, stint⟩ := kv
    by_cases hr : r = p
    · subst hr; simp [setStint, List.lookup, beq_false_of_ne h]
    · simp [setStint, hr, List.lookup, ih]

theorem lookup_removeStint_self (st : PosState) (p : String) :
    (removeStint st p).lookup p = none := by
  induction st with
  | nil => rfl
  | cons kv rest ih =>
    obtain ⟨q, stint⟩ := kv
    by_cases h : q = p
    · simp [removeStint, h, List.filter] at ih ⊢; exact ih
    · simp [removeStint, List.filter, h, List.lookup, beq_false_of_ne (Ne.symm h)] at ih ⊢
      exact ih

theorem lookup_removeStint_other (st : PosState) (p q : String) (h : q ≠ p) :
    (removeStint st p).lookup q = st.lookup q := by
  induction st with
  | nil => rfl
  | cons kv rest ih =>
    obtain ⟨r, stint⟩ := kv
    by_cases hr : r = p
    · subst hr
      simp [removeStint, List.filter, List.lookup, beq_false_of_ne h] at ih ⊢
      exact ih
    · by_cases hq : r = q
      · subst hq
        simp [removeStint, List.filter, hr, List.lookup] at ih ⊢
      · simp [removeStint, List.filter, hr, List.lookup, beq_false_of_ne (Ne.symm hq)] at ih ⊢
        exact ih

theorem lookup_map_val (g : String → Stint → Stint) (st : PosState) (p : String) :
    (st.map (fun kv => (kv.1, g kv.1 kv.2))).lookup p = (st.lookup p).map (g p) := by
  induction st with
  | nil => rfl
  | cons kv rest ih =>
    obtain ⟨q, stint⟩ := kv
    by_cases h : q = p
    · subst h; simp [List.lookup]
    · simp [List.lookup, beq_false_of_ne (Ne.symm h), ih]

theorem lookup_none_of_not_mem_keys {β : Type} (l : List (String × β)) (p : String)
    (h : p ∉ l.map Prod.fst) : l.lookup p = none := by
  induction l with
  | nil => rfl
  | cons kv rest ih =>
    obtain ⟨q, v⟩ := kv
    simp only [List.map_cons, List.mem_cons] at h
    push_neg at h
    simp [List.lookup, beq_false_of_ne h.1, ih h.2]

theorem durOf_addDur_self (d : Durs) (k : String × String) (v : Int) :
    durOf (addDur d k v) k = durOf d k + v := by
  induction d with
  | nil => simp [addDur, durOf]
  | cons kv rest ih =>
    obtain ⟨k', v'⟩ := kv
    by_cases h : k' = k
    · subst h; simp [addDur, durOf, List.lookup]
    · simp [addDur, h, durOf, List.lookup, beq_false_of_ne (Ne.symm h)] at ih ⊢
      exact ih

theorem durOf_addDur_other (d : Durs) (k k' : String × String) (v : Int) (h : k' ≠ k) :
    durOf (addDur d k v) k' = durOf d k' := by
  induction d with
  | nil => simp [addDur, durOf, List.lookup, beq_false_of_ne h]
  | cons kv rest ih =>
    obtain ⟨k0, v0⟩ := kv
    by_cases h0 : k0 = k
    · subst h0
      simp [addDur, durOf, List.lookup, beq_false_of_ne h]
    · by_cases h1 : k0 = k'
      · subst h1; simp [addDur, h0, durOf, List.lookup]
      · simp [addDur, h0, durOf, List.lookup, beq_false_of_ne (Ne.symm h1)] at ih ⊢
        exact ih

theorem dursTotal_addDur_same (d : Durs) (p : String) (pos : String) (v : Int) :
    dursTotal (addDur d (p, pos) v) p = dursTotal d p + v := by
  induction d with
  | nil => simp [addDur, dursTotal]
  | cons kv rest ih =>
    obtain ⟨k0, v0⟩ := kv
    by_cases h0 : k0 = (p, pos)
    · subst h0; simp [addDur, dursTotal, List.filter]; ring
    · by_cases h1 : k0.1 = p
      · simp [addDur, h0, dursTotal, List.filter, h1] at ih ⊢
        omega
      · simp [addDur, h0, dursTotal, List.filter, h1] at ih ⊢
        exact ih

theorem dursTotal_addDur_other (d : Durs) (p : String) (k : String × String) (v : Int)
    (h : k.1 ≠ p) : dursTotal (addDur d k v) p = dursTotal d p := by
  induction d with
  | nil => simp [addDur, dursTotal, List.filter, h]
  | cons kv rest ih =>
    obtain ⟨k0, v0⟩ := kv
    by_cases h0 : k0 = k
    · subst h0; simp [addDur, dursTotal, List.filter, h]
    · by_cases h1 : k0.1 = p
      · simp [addDur, h0, dursTotal, List.filter, h1] at ih ⊢
        omega
      · simp [addDur, h0, dursTotal, List.filter, h1] at ih ⊢
        exact ih

theorem dursTotal_closeEntry (t : Int) (d : Durs) (q : String) (stint : Stint) (p : String) :
    dursTotal (closeEntry t d (q, stint)) p =
      dursTotal d p + (if q = p then contrib t stint else 0) := by
  obtain ⟨pos, os⟩ := stint
  cases os with
  | none => simp [closeEntry, contrib]
  | some s =>
    by_cases ht : 0 < t - s
    · by_cases hq : q = p
      · subst hq
        simp [closeEntry, ht, contrib, dursTotal_addDur_same]
      · have hadd := dursTotal_addDur_other d p (q, pos) (t - s) hq
        simp [closeEntry, ht, contrib, hq, hadd]
    · simp [closeEntry, ht, contrib]

theorem durOf_closeEntry (t : Int) (d : Durs) (q : String) (stint : Stint)
    (k : String × String) :
    durOf (closeEntry t d (q, stint)) k =
      durOf d k + (if k = (q, stint.1) then contrib t stint else 0) := by
  obtain ⟨pos, os⟩ := stint
  cases os with
  | none => simp [closeEntry, contrib]
  | some s =>
    by_cases ht : 0 < t - s
    · by_cases hk : k = (q, pos)
      · subst hk
        simp [closeEntry, ht, contrib, durOf_addDur_self]
      · have hadd := durOf_addDur_other d (q, pos) k (t - s) hk
        simp [closeEntry, ht, contrib, hk, hadd]
    · simp [closeEntry, ht, contrib]

theorem dursTotal_closeAll (st : PosState) : ∀ (d : Durs) (t : Int) (p : String),
    (st.map Prod.fst).Nodup →
    dursTotal (closeAll d st t) p =
      dursTotal d p +
        (match st.lookup p with | some stint => contrib t stint | none => 0) := by
  induction st with
  | nil => intro d t p _; simp [closeAll]
  | cons kv rest ih =>
    intro d t p hnd
    obtain ⟨q, stint⟩ := kv
    have hca : closeAll d ((q, stint) :: rest) t = closeAll (closeEntry t d (q, stint)) rest t :=
      rfl
    rw [hca]
    simp only [List.map_cons, List.nodup_cons] at hnd
    by_cases hq : q = p
    · subst hq
      have hrest : rest.lookup q = none := lookup_none_of_not_mem_keys rest q hnd.1
      rw [ih (closeEntry t d (q, stint)) t q hnd.2, hrest]
      simp [List.lookup, dursTotal_closeEntry]
    · rw [ih (closeEntry t d (q, stint)) t p hnd.2, dursTotal_closeEntry]
      simp [List.lookup, beq_false_of_ne (Ne.symm hq), hq]

theorem durOf_closeAll (st : PosState) : ∀ (d : Durs) (t : Int) (p pos : String),
    (st.map Prod.fst).Nodup →
    durOf (closeAll d st t) (p, pos) =
      durOf d (p, pos) +
        (match st.lookup p with
         | some stint => if stint.1 = pos then contrib t stint else 0
         | none => 0) := by
  induction st with
  | nil => intro d t p pos _; simp [closeAll]
  | cons kv rest ih =>
    intro d t p pos hnd
    obtain ⟨q, stint⟩ := kv
    have hca : closeAll d ((q, stint) :: rest) t = closeAll (closeEntry t d (q, stint)) rest t :=
      rfl
    rw [hca]
    simp only [List.map_cons, List.nodup_cons] at hnd
    by_cases hq : q = p
    · subst hq
      have hrest : rest.lookup q = none := lookup_none_of_not_mem_keys rest q hnd.1
      rw [ih (closeEntry t d (q, stint)) t q pos hnd.2, hrest]
      by_cases hpos : stint.1 = pos
      · subst hpos
        simp [List.lookup, durOf_closeEntry]
      · have : ((q : String), pos) ≠ (q, stint.1) := by
          intro hcon
          exact hpos (congrArg Prod.snd hcon).symm
        simp [List.lookup, durOf_closeEntry, this, hpos]
    · rw [ih (closeEntry t d (q, stint)) t p pos hnd.2, durOf_closeEntry]
      have : ((p : String), pos) ≠ (q, stint.1) := by
        intro hcon
        exact hq ((congrArg Prod.fst hcon).symm)
      simp [List.lookup, beq_false_of_ne (Ne.symm hq), this]

/-! Branch-value equations for `stepTrack`. -/

theorem stepTrack_posUpd_valid (d : Durs) (st : PosState) (e : Event)
    (h1 : e.baseTypeId = some 18)
    (h2 : e.subTypeId = some 1800 ∨ e.subTypeId = some 1801)
    (hv : validPosEvent e = true) :
    stepTrack (d, st) e =
      ((match st.lookup (e.playerName.getD "") with
        | some (prevPos, some s0) =>
            if 0 < timeD e - s0 then
              addDur d (e.playerName.getD "", prevPos) (timeD e - s0)
            else d
        | _ => d),
       setStint st (e.playerName.getD "")
         (map_position_to_nl (e.positionTypeName.getD ""), some (timeD e))) := by
  simp only [stepTrack]
  rw [if_pos ⟨h1, h2⟩, if_pos hv]

theorem stepTrack_posUpd_invalid (d : Durs) (st : PosState) (e : Event)
    (h1 : e.baseTypeId = some 18)
    (h2 : e.subTypeId = some 1800 ∨ e.subTypeId = some 1801)
    (hv : validPosEvent e = false) :
    stepTrack (d, st) e = (d, st) := by
  simp only [stepTrack]
  rw [if_pos ⟨h1, h2⟩, if_neg (by simp [hv])]

theorem stepTrack_periodStart (d : Durs) (st : PosState) (e : Event)
    (h1 : e.baseTypeId = some 14) (h2 : e.subTypeId = some 1400) :
    stepTrack (d, st) e =
      (d, st.map (fun kv => if kv.2.2 = none then (kv.1, (kv.2.1, some (timeD e))) else kv)) := by
  simp only [stepTrack]
  rw [if_neg (by simp [h1]), if_pos ⟨h1, h2⟩]

theorem stepTrack_periodEnd (d : Durs) (st : PosState) (e : Event)
    (h1 : e.baseTypeId = some 14) (h2 : e.subTypeId = some 1401) :
    stepTrack (d, st) e =
      (closeAll d st (timeD e), st.map (fun kv => (kv.1, (kv.2.1, (none : Option Int))))) := by
  simp only [stepTrack]
  rw [if_neg (by simp [h1]), if_neg (by simp [h2]), if_pos ⟨h1, h2⟩]

theorem stepTrack_subOut (d : Durs) (st : PosState) (e : Event)
    (h1 : e.baseTypeId = some 16) (h2 : e.subTypeId = some 1600) :
    stepTrack (d, st) e =
      (match e.playerName with
       | some pn =>
           if pn ≠ "" then
             match st.lookup pn with
             | some stint => (closeEntry (timeD e) d (pn, stint), removeStint st pn)
             | none => (d, st)
           else (d, st)
       | none => (d, st)) := by
  simp only [stepTrack]
  rw [if_neg (by simp [h1]), if_neg (by simp [h1]), if_neg (by simp [h2]), if_pos ⟨h1, h2⟩]

theorem stepTrack_other (d : Durs) (st : PosState) (e : Event)
    (h1 : ¬ (e.baseTypeId = some 18 ∧ (e.subTypeId = some 1800 ∨ e.subTypeId = some 1801)))
    (h2 : ¬ (e.baseTypeId = some 14 ∧ e.subTypeId = some 1400))
    (h3 : ¬ (e.baseTypeId = some 14 ∧ e.subTypeId = some 1401))
    (h4 : ¬ (e.baseTypeId = some 16 ∧ e.subTypeId = some 1600)) :
    stepTrack (d, st) e = (d, st) := by
  simp only [stepTrack]
  rw [if_neg h1, if_neg h2, if_neg h3, if_neg h4]

/-! Nodup-keys invariant of the tracker state. -/

theorem mem_keys_setStint (st : PosState) (p r : String) (v : Stint)
    (h : r ∈ (setStint st p v).map Prod.fst) : r ∈ st.map Prod.fst ∨ r = p := by
  induction st with
  | nil =>
    simp [setStint] at h
    exact Or.inr h
  | cons kv rest ih =>
    obtain ⟨q, stint⟩ := kv
    by_cases hq : q = p
    · subst hq
      simp [setStint] at h
      rcases h with h | h
      · exact Or.inl (by simp [h])
      · exact Or.inl (by simp [h])
    · simp only [setStint, if_neg hq, List.map_cons, List.mem_cons] at h
      rcases h with h | h
      · exact Or.inl (by simp [h])
      · rcases ih h with h' | h'
        · exact Or.inl (List.mem_cons.mpr (Or.inr h'))
        · exact Or.inr h'

theorem nodup_keys_setStint (st : PosState) (p : String) (v : Stint)
    (h : (st.map Prod.fst).Nodup) : ((setStint st p v).map Prod.fst).Nodup := by
  induction st with
  | nil => simp [setStint]
  | cons kv rest ih =>
    obtain ⟨q, stint⟩ := kv
    simp only [List.map_cons, List.nodup_cons] at h
    by_cases hq : q = p
    · subst hq
      have hset : setStint ((q, stint) :: rest) q v = (q, v) :: rest := by
        simp [setStint]
      rw [hset]
      simp only [List.map_cons, List.nodup_cons]
      exact h
    · simp only [setStint, if_neg hq, List.map_cons, List.nodup_cons]
      refine ⟨fun hmem => ?_, ih h.2⟩
      rcases mem_keys_setStint rest p q v hmem with h' | h'
      · exact h.1 h'
      · exact hq h'

theorem nodup_keys_removeStint (st : PosState) (p : String)
    (h : (st.map Prod.fst).Nodup) : ((removeStint st p).map Prod.fst).Nodup :=
  ((List.filter_sublist st).map Prod.fst).nodup h

theorem nodup_keys_stepTrack (d : Durs) (st : PosState) (e : Event)
    (h : (st.map Prod.fst).Nodup) : ((stepTrack (d, st) e).2.map Prod.fst).Nodup := by
  by_cases c1 : e.baseTypeId = some 18 ∧ (e.subTypeId = some 1800 ∨ e.subTypeId = some 1801)
  · rcases hv : validPosEvent e with _ | _
    · rw [stepTrack_posUpd_invalid d st e c1.1 c1.2 hv]
      exact h
    · rw [stepTrack_posUpd_valid d st e c1.1 c1.2 hv]
      exact nodup_keys_setStint st _ _ h
  · by_cases c2 : e.baseTypeId = some 14 ∧ e.subTypeId = some 1400
    · rw [stepTrack_periodStart d st e c2.1 c2.2]
      have hkeys : (st.map (fun kv =>
          if kv.2.2 = none then (kv.1, (kv.2.1, some (timeD e))) else kv)).map Prod.fst
          = st.map Prod.fst := by
        rw [List.map_map]
        apply List.map_congr_left
        intro kv _
        by_cases hkv : kv.2.2 = none <;> simp [hkv]
      rw [hkeys]
      exact h
    · by_cases c3 : e.baseTypeId = some 14 ∧ e.subTypeId = some 1401
      · rw [stepTrack_periodEnd d st e c3.1 c3.2]
        have hkeys : (st.map (fun kv => (kv.1, (kv.2.1, (none : Option Int))))).map Prod.fst
            = st.map Prod.fst := by
          rw [List.map_map]
          rfl
        rw [hkeys]
        exact h
      · by_cases c4 : e.baseTypeId = some 16 ∧ e.subTypeId = some 1600
        · rw [stepTrack_subOut d st e c4.1 c4.2]
          rcases hpn : e.playerName with _ | pn
          · exact h
          · by_cases hne : pn ≠ ""
            · rcases hlk : st.lookup pn with _ | stint
              · simp only [if_pos hne, hlk]
                exact h
              · simp only [if_pos hne, hlk]
                exact nodup_keys_removeStint st pn h
            · simp only [if_neg hne]
              exact h
        · rw [stepTrack_other d st e c1 c2 c3 c4]
          exact h

theorem nodup_keys_foldl (L : List Event) : ∀ (d : Durs) (st : PosState),
    (st.map Prod.fst).Nodup → ((L.foldl stepTrack (d, st)).2.map Prod.fst).Nodup := by
  induction L with
  | nil => intro d st h; exact h
  | cons e rest ih =>
    intro d st h
    have hstep := nodup_keys_stepTrack d st e h
    have : rest.foldl stepTrack (stepTrack (d, st) e)
        = rest.foldl stepTrack ((stepTrack (d, st) e).1, (stepTrack (d, st) e).2) := rfl
    rw [List.foldl_cons, this]
    exact ih _ _ hstep

/-- Claim C4 (amended): the tracker is a state machine over the
timestamp-sorted filtered event list in which (i) a period-end marker
closes every open stint — accumulating its positive elapsed duration — and
suspends it with a `none` start time, keeping the position; (ii) a
period-start marker resumes every suspended stint at the marker's event
time, leaving durations unchanged; (iii) a substitution-out event closes
the player's open stint (if any) and removes that player from the current
tracking state, leaving other players untouched (a later position-update
event re-adds the player, so removal is not for the rest of the match);
and (iv) at end of match every still-open stint is closed at the timestamp
of the last processed event in the filtered list. -/
theorem C4_tracker_state_machine :
    (∀ (d : Durs) (st : PosState) (e : Event) (p pos : String) (s : Int),
      (st.map Prod.fst).Nodup →
      e.baseTypeId = some 14 → e.subTypeId = some 1401 →
      st.lookup p = some (pos, some s) →
        (stepTrack (d, st) e).2.lookup p = some (pos, none)
        ∧ durOf (stepTrack (d, st) e).1 (p, pos) =
            durOf d (p, pos) + (if 0 < timeD e - s then timeD e - s else 0))
    ∧ (∀ (d : Durs) (st : PosState) (e : Event) (p pos : String),
      e.baseTypeId = some 14 → e.subTypeId = some 1400 →
        (stepTrack (d, st) e).1 = d
        ∧ (st.lookup p = some (pos, none) →
            (stepTrack (d, st) e).2.lookup p = some (pos, some (timeD e))))
    ∧ (∀ (d : Durs) (st : PosState) (e : Event) (p : String) (stint : Stint),
      e.baseTypeId = some 16 → e.subTypeId = some 1600 →
      e.playerName = some p → p ≠ "" → st.lookup p = some stint →
        (stepTrack (d, st) e).2.lookup p = none
        ∧ (∀ q, q ≠ p → (stepTrack (d, st) e).2.lookup q = st.lookup q)
        ∧ durOf (stepTrack (d, st) e).1 (p, stint.1) =
            durOf d (p, stint.1) + contrib (timeD e) stint)
    ∧ (∀ (d₀ : Durs) (events : List Event) (elast : Event) (p pos : String) (s : Int),
      (sortTrack events).getLast? = some elast →
      ((sortTrack events).foldl stepTrack (d₀, [])).2.lookup p = some (pos, some s) →
        durOf (processMatch d₀ events) (p, pos) =
          durOf ((sortTrack events).foldl stepTrack (d₀, [])).1 (p, pos)
            + (if 0 < timeD elast - s then timeD elast - s else 0)) := by
  refine ⟨?_, ?_, ?_, ?_⟩
  · -- (i) period-end
    intro d st e p pos s hnd h1 h2 hlk
    rw [stepTrack_periodEnd d st e h1 h2]
    constructor
    · have := lookup_map_val (fun _ v => (v.1, (none : Option Int))) st p
      simp only at this
      rw [this, hlk]
      rfl
    · rw [durOf_closeAll st d (timeD e) p pos hnd, hlk]
      simp [contrib]
  · -- (ii) period-start
    intro d st e p pos h1 h2
    rw [stepTrack_periodStart d st e h1 h2]
    refine ⟨rfl, fun hlk => ?_⟩
    have hmap : st.map (fun kv => if kv.2.2 = none then (kv.1, (kv.2.1, some (timeD e))) else kv)
        = st.map (fun kv =>
            (kv.1, if kv.2.2 = none then (kv.2.1, some (timeD e)) else kv.2)) := by
      apply List.map_congr_left
      intro kv _
      by_cases hkv : kv.2.2 = none <;> simp [hkv]
    rw [hmap]
    have := lookup_map_val
      (fun _ v => if v.2 = none then (v.1, some (timeD e)) else v) st p
    simp only at this
    rw [this, hlk]
    rfl
  · -- (iii) substitution-out
    intro d st e p stint h1 h2 hpn hne hlk
    rw [stepTrack_subOut d st e h1 h2]
    simp only [hpn, if_pos hne, hlk]
    refine ⟨lookup_removeStint_self st p,
      fun q hq => lookup_removeStint_other st p q hq, ?_⟩
    rw [durOf_closeEntry, if_pos rfl]
  · -- (iv) end of match
    intro d₀ events elast p pos s hlast hlk
    have hproc : processMatch d₀ events =
        closeAll ((sortTrack events).foldl stepTrack (d₀, [])).1
          ((sortTrack events).foldl stepTrack (d₀, [])).2 (timeD elast) := by
      simp only [processMatch, hlast]
    rw [hproc]
    have hnd : (((sortTrack events).foldl stepTrack (d₀, [])).2.map Prod.fst).Nodup :=
      nodup_keys_foldl (sortTrack events) d₀ [] (by simp)
    rw [durOf_closeAll _ _ _ _ _ hnd, hlk]
    simp [contrib]

/-- Closed instance of the claim C4 transitions: a period-end marker at
60000 ms suspends the open stint and credits 60000 ms; a period-start
marker resumes a suspended stint at its own time; a substitution-out event
removes the player; end of match closes the still-open stint at the last
event's time. -/
theorem C4_tracker_state_machine_witness :
    ((stepTrack ([], [("P", ("CV", some 0))])
        { baseTypeId := some 14, subTypeId := some 1401,
          startTimeMs := some 60000 }).2.lookup "P" = some ("CV", none)
      ∧ durOf (stepTrack ([], [("P", ("CV", some 0))])
          { baseTypeId := some 14, subTypeId := some 1401,
            startTimeMs := some 60000 }).1 ("P", "CV") =
        durOf [] ("P", "CV") + (if 0 < (60000 : Int) - 0 then (60000 : Int) - 0 else 0))
    ∧ ((stepTrack ([], [("P", ("CV", none))])
        { baseTypeId := some 14, subTypeId := some 1400,
          startTimeMs := some 90000 }).1 = []
      ∧ (stepTrack ([], [("P", ("CV", none))])
          { baseTypeId := some 14, subTypeId := some 1400,
            startTimeMs := some 90000 }).2.lookup "P" = some ("CV", some 90000))
    ∧ ((stepTrack ([], [("P", ("CV", some 0))])
        { baseTypeId := some 16, subTypeId := some 1600, playerName := some "P",
          startTimeMs := some 120000 }).2.lookup "P" = none)
    ∧ durOf (processMatch []
        [{ baseTypeId := some 18, subTypeId := some 1800, playerName := some "P",
           positionTypeName := some "XX", startTimeMs := some 0 }]) ("P", "XX") =
      durOf ((sortTrack
        [{ baseTypeId := some 18, subTypeId := some 1800, playerName := some "P",
           positionTypeName := some "XX", startTimeMs := some 0 }]).foldl
          stepTrack ([], [])).1 ("P", "XX")
        + (if 0 < (0 : Int) - 0 then (0 : Int) - 0 else 0) := by
  obtain ⟨h1, h2, h3, h4⟩ := C4_tracker_state_machine
  refine ⟨?_, ?_, ?_, ?_⟩
  · have := h1 [] [("P", ("CV", some 0))]
      { baseTypeId := some 14, subTypeId := some 1401, startTimeMs := some 60000 }
      "P" "CV" 0 (by decide) rfl rfl (by decide)
    exact ⟨this.1, by simpa [timeD] using this.2⟩
  · have := h2 [] [("P", ("CV", none))]
      { baseTypeId := some 14, subTypeId := some 1400, startTimeMs := some 90000 }
      "P" "CV" rfl rfl
    exact ⟨this.1, by simpa [timeD] using this.2 (by decide)⟩
  · exact (h3 [] [("P", ("CV", some 0))]
      { baseTypeId := some 16, subTypeId := some 1600, playerName := some "P",
        startTimeMs := some 120000 }
      "P" ("CV", some 0) rfl rfl rfl (by decide) (by decide)).1
  · have := h4 []
      [{ baseTypeId := some 18, subTypeId := some 1800, playerName := some "P",
         positionTypeName := some "XX", startTimeMs := some 0 }]
      { baseTypeId := some 18, subTypeId := some 1800, playerName := some "P",
        positionTypeName := some "XX", startTimeMs := some 0 }
      "P" "XX" 0 (by decide) (by decide)
    simpa [timeD] using this

/-- The four-event match showing re-tracking after a substitution-out:
position update for `P` at 0 ms, substitution-out at 60000 ms, position
update at 120000 ms, position update to a new position at 180000 ms. -/
def exC4 : List Event :=
  [{ baseTypeId := some 18, subTypeId := some 1800, playerName := some "P",
     positionTypeName := some "XX", startTimeMs := some 0 },
   { baseTypeId := some 16, subTypeId := some 1600, playerName := some "P",
     startTimeMs := some 60000 },
   { baseTypeId := some 18, subTypeId := some 1800, playerName := some "P",
     positionTypeName := some "XX", startTimeMs := some 120000 },
   { baseTypeId := some 18, subTypeId := some 1800, playerName := some "P",
     positionTypeName := some "YY", startTimeMs := some 180000 }]

/-- The same match truncated right after the substitution-out. -/
def exC4pre : List Event :=
  [{ baseTypeId := some 18, subTypeId := some 1800, playerName := some "P",
     positionTypeName := some "XX", startTimeMs := some 0 },
   { baseTypeId := some 16, subTypeId := some 1600, playerName := some "P",
     startTimeMs := some 60000 }]

/-- Claim C4 (counterexample): the substitution-out event does not remove
the player from tracking for the rest of the match: a later position
update re-adds the player, and the match accumulates 120000 ms for
`("P", "XX")` instead of the 60000 ms accumulated up to the
substitution-out. -/
theorem C4_subout_retracking_counterexample :
    durOf (processMatch [] exC4) ("P", "XX") = 120000
    ∧ durOf (processMatch [] exC4pre) ("P", "XX") = 60000
    ∧ (120000 : Int) ≠ 60000 := by
  decide

/-! Potential-function bound for the tracker: accumulated duration plus
the elapsed time of a player's open stint never exceeds the time span of
the processed events. -/

/-- Elapsed time of the player's open stint at time `t` (0 when absent or
suspended). -/
def openElapsed (st : PosState) (p : String) (t : Int) : Int :=
  match st.lookup p with
  | some (_, some s) => t - s
  | _ => 0

/-- The potential: total accumulated duration plus open-stint elapsed
time. -/
def muF (d : Durs) (st : PosState) (p : String) (t : Int) : Int :=
  dursTotal d p + openElapsed st p t

theorem muF_mono (d : Durs) (st : PosState) (p : String) (t t' : Int) (h : t ≤ t') :
    muF d st p t' ≤ muF d st p t + (t' - t) := by
  rw [muF, muF]
  rcases hl : st.lookup p with _ | ⟨pos, os⟩
  · simp [openElapsed, hl]; omega
  · cases os with
    | none => simp [openElapsed, hl]; omega
    | some s => simp [openElapsed, hl]; omega

theorem openElapsed_of_lookup (st : PosState) (p : String) (t : Int) :
    (st.lookup p = none → openElapsed st p t = 0)
    ∧ (∀ pos, st.lookup p = some (pos, none) → openElapsed st p t = 0)
    ∧ (∀ pos s, st.lookup p = some (pos, some s) → openElapsed st p t = t - s) := by
  refine ⟨fun h => ?_, fun pos h => ?_, fun pos s h => ?_⟩ <;> rw [openElapsed, h]

theorem mu_posUpd (d : Durs) (st : PosState) (pn mapped : String) (t : Int) (p : String)
    (hopen : ∀ q pos s, st.lookup q = some (pos, some s) → s ≤ t) :
    muF (match st.lookup pn with
         | some (prevPos, some s0) =>
             if 0 < t - s0 then addDur d (pn, prevPos) (t - s0) else d
         | _ => d)
        (setStint st pn (mapped, some t)) p t ≤ muF d st p t := by
  by_cases hp : p = pn
  · subst hp
    have hel : openElapsed (setStint st p (mapped, some t)) p t = t - t := by
      rw [openElapsed, lookup_setStint_self]
    rcases hl : st.lookup p with _ | ⟨prevPos, os⟩
    · simp only [hl, muF, hel, (openElapsed_of_lookup st p t).1 hl]
      omega
    · cases os with
      | none =>
        simp only [hl, muF, hel, (openElapsed_of_lookup st p t).2.1 prevPos hl]
        omega
      | some s0 =>
        have hs0 : s0 ≤ t := hopen p prevPos s0 hl
        have helold := (openElapsed_of_lookup st p t).2.2 prevPos s0 hl
        by_cases hpos : 0 < t - s0
        · simp only [hl, if_pos hpos, muF, hel, helold, dursTotal_addDur_same]
          omega
        · simp only [hl, if_neg hpos, muF, hel, helold]
          omega
  · have hel : openElapsed (setStint st pn (mapped, some t)) p t = openElapsed st p t := by
      rw [openElapsed, lookup_setStint_other st pn p _ hp, openElapsed]
    rcases hl : st.lookup pn with _ | ⟨prevPos, os⟩
    · simp only [hl, muF, hel]
      omega
    · cases os with
      | none =>
        simp only [hl, muF, hel]
        omega
      | some s0 =>
        by_cases hpos : 0 < t - s0
        · have hdt := dursTotal_addDur_other d p (pn, prevPos) (t - s0) (Ne.symm hp)
          simp only [hl, if_pos hpos, muF, hdt, hel]
          omega
        · simp only [hl, if_neg hpos, muF, hel]
          omega

theorem mu_periodStart (d : Durs) (st : PosState) (t : Int) (p : String) :
    muF d (st.map (fun kv => if kv.2.2 = none then (kv.1, (kv.2.1, some t)) else kv)) p t
      ≤ muF d st p t := by
  have hmap : st.map (fun kv => if kv.2.2 = none then (kv.1, (kv.2.1, some t)) else kv)
      = st.map (fun kv => (kv.1, if kv.2.2 = none then (kv.2.1, some t) else kv.2)) := by
    apply List.map_congr_left
    intro kv _
    by_cases hkv : kv.2.2 = none <;> simp [hkv]
  rw [muF, muF, hmap]
  have hlk := lookup_map_val (fun _ v => if v.2 = none then (v.1, some t) else v) st p
  simp only at hlk
  set st' := st.map (fun kv => (kv.1, if kv.2.2 = none then (kv.2.1, some t) else kv.2))
    with hst'
  rcases hl : st.lookup p with _ | ⟨pos, os⟩
  · rw [hl] at hlk
    rw [(openElapsed_of_lookup st' p t).1 (hlk.trans rfl),
      (openElapsed_of_lookup st p t).1 hl]
  · rw [hl] at hlk
    cases os with
    | none =>
      rw [(openElapsed_of_lookup st' p t).2.2 pos t (hlk.trans rfl),
        (openElapsed_of_lookup st p t).2.1 pos hl]
      omega
    | some s =>
      rw [(openElapsed_of_lookup st' p t).2.2 pos s (hlk.trans rfl),
        (openElapsed_of_lookup st p t).2.2 pos s hl]

theorem mu_periodEnd (d : Durs) (st : PosState) (t : Int) (p : String)
    (hnd : (st.map Prod.fst).Nodup)
    (hopen : ∀ q pos s, st.lookup q = some (pos, some s) → s ≤ t) :
    muF (closeAll d st t) (st.map (fun kv => (kv.1, (kv.2.1, (none : Option Int))))) p t
      ≤ muF d st p t := by
  have hmap : st.map (fun kv => (kv.1, (kv.2.1, (none : Option Int))))
      = st.map (fun kv => (kv.1, ((kv.2.1 : String), (none : Option Int)))) := rfl
  have hlk := lookup_map_val (fun _ v => ((v.1 : String), (none : Option Int))) st p
  simp only at hlk
  set st' := st.map (fun kv => (kv.1, ((kv.2.1 : String), (none : Option Int)))) with hst'
  have hel : openElapsed st' p t = 0 := by
    rcases hl : st.lookup p with _ | ⟨pos, os⟩ <;> rw [hl] at hlk
    · exact (openElapsed_of_lookup st' p t).1 (hlk.trans rfl)
    · exact (openElapsed_of_lookup st' p t).2.1 pos (hlk.trans rfl)
  rw [muF, muF, hmap, hel, dursTotal_closeAll st d t p hnd]
  rcases hl : st.lookup p with _ | ⟨pos, os⟩
  · rw [(openElapsed_of_lookup st p t).1 hl]
    simp
  · cases os with
    | none =>
      rw [(openElapsed_of_lookup st p t).2.1 pos hl]
      simp [contrib]
    | some s =>
      have hs : s ≤ t := hopen p pos s hl
      rw [(openElapsed_of_lookup st p t).2.2 pos s hl]
      by_cases hpos : 0 < t - s
      · simp only [contrib, if_pos hpos, add_zero]
        exact le_refl _
      · simp only [contrib, if_neg hpos, add_zero]
        exact le_add_of_nonneg_right (by omega)

theorem mu_subOutRemove (d : Durs) (st : PosState) (t : Int) (p pn : String) (stint : Stint)
    (hlk : st.lookup pn = some stint)
    (hopen : ∀ q pos s, st.lookup q = some (pos, some s) → s ≤ t) :
    muF (closeEntry t d (pn, stint)) (removeStint st pn) p t ≤ muF d st p t := by
  rw [muF, muF, dursTotal_closeEntry]
  by_cases hp : pn = p
  · subst hp
    have hel : openElapsed (removeStint st pn) pn t = 0 :=
      (openElapsed_of_lookup _ pn t).1 (lookup_removeStint_self st pn)
    rw [hel, if_pos rfl]
    obtain ⟨pos, os⟩ := stint
    cases os with
    | none =>
      rw [(openElapsed_of_lookup st pn t).2.1 pos hlk]
      simp [contrib]
    | some s =>
      have hs : s ≤ t := hopen pn pos s hlk
      rw [(openElapsed_of_lookup st pn t).2.2 pos s hlk]
      by_cases hpos : 0 < t - s
      · simp only [contrib, if_pos hpos]
        omega
      · simp only [contrib, if_neg hpos]
        omega
  · have hel : openElapsed (removeStint st pn) p t = openElapsed st p t := by
      rw [openElapsed, lookup_removeStint_other st pn p (fun hc => hp hc.symm), openElapsed]
    rw [hel, if_neg hp]
    omega

theorem stepTrack_mu (d : Durs) (st : PosState) (e : Event) (p : String)
    (hnd : (st.map Prod.fst).Nodup)
    (hopen : ∀ q pos s, st.lookup q = some (pos, some s) → s ≤ timeD e) :
    muF (stepTrack (d, st) e).1 (stepTrack (d, st) e).2 p (timeD e)
      ≤ muF d st p (timeD e) := by
  by_cases c1 : e.baseTypeId = some 18 ∧ (e.subTypeId = some 1800 ∨ e.subTypeId = some 1801)
  · rcases hv : validPosEvent e with _ | _
    · rw [stepTrack_posUpd_invalid d st e c1.1 c1.2 hv]
    · rw [stepTrack_posUpd_valid d st e c1.1 c1.2 hv]
      exact mu_posUpd d st _ _ (timeD e) p hopen
  · by_cases c2 : e.baseTypeId = some 14 ∧ e.subTypeId = some 1400
    · rw [stepTrack_periodStart d st e c2.1 c2.2]
      exact mu_periodStart d st (timeD e) p
    · by_cases c3 : e.baseTypeId = some 14 ∧ e.subTypeId = some 1401
      · rw [stepTrack_periodEnd d st e c3.1 c3.2]
        exact mu_periodEnd d st (timeD e) p hnd hopen
      · by_cases c4 : e.baseTypeId = some 16 ∧ e.subTypeId = some 1600
        · rw [stepTrack_subOut d st e c4.1 c4.2]
          rcases hpn : e.playerName with _ | pn
          · exact le_refl _
          · by_cases hne : pn ≠ ""
            · rcases hlk : st.lookup pn with _ | stint
              · simp only [if_pos hne, hlk]
                exact le_refl _
              · simp only [if_pos hne, hlk]
                exact mu_subOutRemove d st (timeD e) p pn stint hlk hopen
            · simp only [if_neg hne]
              exact le_refl _
        · rw [stepTrack_other d st e c1 c2 c3 c4]

theorem stepTrack_starts (d : Durs) (st : PosState) (e : Event)
    (hopen : ∀ q pos s, st.lookup q = some (pos, some s) → s ≤ timeD e) :
    ∀ q pos s, (stepTrack (d, st) e).2.lookup q = some (pos, some s) → s ≤ timeD e := by
  by_cases c1 : e.baseTypeId = some 18 ∧ (e.subTypeId = some 1800 ∨ e.subTypeId = some 1801)
  · rcases hv : validPosEvent e with _ | _
    · rw [stepTrack_posUpd_invalid d st e c1.1 c1.2 hv]
      exact hopen
    · rw [stepTrack_posUpd_valid d st e c1.1 c1.2 hv]
      intro q pos s h
      by_cases hq : q = e.playerName.getD ""
      · subst hq
        rw [lookup_setStint_self] at h
        injection h with h
        have := (congrArg Prod.snd h).symm
        injection this with this
        omega
      · rw [lookup_setStint_other st _ q _ hq] at h
        exact hopen q pos s h
  · by_cases c2 : e.baseTypeId = some 14 ∧ e.subTypeId = some 1400
    · rw [stepTrack_periodStart d st e c2.1 c2.2]
      intro q pos s h
      have hmap : st.map (fun kv => if kv.2.2 = none then (kv.1, (kv.2.1, some (timeD e))) else kv)
          = st.map (fun kv =>
              (kv.1, if kv.2.2 = none then (kv.2.1, some (timeD e)) else kv.2)) := by
        apply List.map_congr_left
        intro kv _
        by_cases hkv : kv.2.2 = none <;> simp [hkv]
      rw [hmap] at h
      have hlk := lookup_map_val
        (fun _ v => if v.2 = none then (v.1, some (timeD e)) else v) st q
      simp only at hlk
      rw [hlk] at h
      rcases hl : st.lookup q with _ | ⟨pos', os⟩ <;> rw [hl] at h
      · cases h
      · cases os with
        | none =>
          simp at h
          obtain ⟨hpos', hs⟩ := h
          omega
        | some s0 =>
          simp at h
          obtain ⟨hpos', hs0⟩ := h
          exact hs0 ▸ hopen q pos' s0 hl
    · by_cases c3 : e.baseTypeId = some 14 ∧ e.subTypeId = some 1401
      · rw [stepTrack_periodEnd d st e c3.1 c3.2]
        intro q pos s h
        have hlk := lookup_map_val (fun _ v => ((v.1 : String), (none : Option Int))) st q
        simp only at hlk
        rw [hlk] at h
        rcases hl : st.lookup q with _ | v <;> rw [hl] at h
        · cases h
        · simp at h
      · by_cases c4 : e.baseTypeId = some 16 ∧ e.subTypeId = some 1600
        · rw [stepTrack_subOut d st e c4.1 c4.2]
          rcases hpn : e.playerName with _ | pn
          · exact hopen
          · by_cases hne : pn ≠ ""
            · rcases hlk : st.lookup pn with _ | stint
              · simp only [if_pos hne, hlk]
                exact hopen
              · simp only [if_pos hne, hlk]
                intro q pos s h
                by_cases hq : q = pn
                · subst hq
                  rw [lookup_removeStint_self] at h
                  cases h
                · rw [lookup_removeStint_other st pn q hq] at h
                  exact hopen q pos s h
            · simp only [if_neg hne]
              exact hopen
        · rw [stepTrack_other d st e c1 c2 c3 c4]
          exact hopen

theorem foldl_mu_bound (L : List Event) : ∀ (d : Durs) (st : PosState) (t₀ T : Int),
    L.Pairwise (fun a b => timeD a ≤ timeD b) →
    (∀ e ∈ L, t₀ ≤ timeD e) →
    (∀ e ∈ L, timeD e ≤ T) →
    t₀ ≤ T →
    (st.map Prod.fst).Nodup →
    (∀ q pos s, st.lookup q = some (pos, some s) → s ≤ t₀) →
    (∀ p, muF (L.foldl stepTrack (d, st)).1 (L.foldl stepTrack (d, st)).2 p T
        ≤ muF d st p t₀ + (T - t₀))
    ∧ (∀ q pos s, (L.foldl stepTrack (d, st)).2.lookup q = some (pos, some s) → s ≤ T) := by
  induction L with
  | nil =>
    intro d st t₀ T _ _ _ ht0T _ hstarts
    exact ⟨fun p => muF_mono d st p t₀ T ht0T,
      fun q pos s h => le_trans (hstarts q pos s h) ht0T⟩
  | cons e rest ih =>
    intro d st t₀ T hpair hlo hhi ht0T hnd hstarts
    have hte_lo : t₀ ≤ timeD e := hlo e (List.mem_cons_self e rest)
    have hte_hi : timeD e ≤ T := hhi e (List.mem_cons_self e rest)
    have hopen_te : ∀ q pos s, st.lookup q = some (pos, some s) → s ≤ timeD e :=
      fun q pos s h => le_trans (hstarts q pos s h) hte_lo
    have hnd' := nodup_keys_stepTrack d st e hnd
    have hstep_starts := stepTrack_starts d st e hopen_te
    have hpair' := (List.pairwise_cons.mp hpair).2
    have hhead := (List.pairwise_cons.mp hpair).1
    have hlo' : ∀ e' ∈ rest, timeD e ≤ timeD e' := hhead
    have hhi' : ∀ e' ∈ rest, timeD e' ≤ T := fun e' he' => hhi e' (List.mem_cons_of_mem e he')
    have hrec := ih (stepTrack (d, st) e).1 (stepTrack (d, st) e).2 (timeD e) T
      hpair' hlo' hhi' hte_hi hnd' hstep_starts
    constructor
    · intro p
      have h1 := hrec.1 p
      have h2 := stepTrack_mu d st e p hnd hopen_te
      have h3 := muF_mono d st p t₀ (timeD e) hte_lo
      have hfold : (e :: rest).foldl stepTrack (d, st)
          = rest.foldl stepTrack ((stepTrack (d, st) e).1, (stepTrack (d, st) e).2) := rfl
      rw [hfold]
      omega
    · intro q pos s h
      refine hrec.2 q pos s ?_
      exact h


/-- Lookup-dependent closing contribution for one player. -/
def lookContrib (st : PosState) (p : String) (t : Int) : Int :=
  match st.lookup p with
  | some stint => contrib t stint
  | none => 0

theorem lookContrib_of_none (st : PosState) (p : String) (t : Int)
    (h : st.lookup p = none) : lookContrib st p t = 0 := by
  rw [lookContrib, h]

theorem lookContrib_of_some (st : PosState) (p : String) (t : Int) (stint : Stint)
    (h : st.lookup p = some stint) : lookContrib st p t = contrib t stint := by
  rw [lookContrib, h]

theorem contrib_none (t : Int) (pos : String) : contrib t (pos, none) = 0 := rfl

theorem contrib_some (t : Int) (pos : String) (s : Int) :
    contrib t (pos, some s) = if 0 < t - s then t - s else 0 := rfl

theorem dursTotal_closeAll_lc (st : PosState) (d : Durs) (t : Int) (p : String)
    (hnd : (st.map Prod.fst).Nodup) :
    dursTotal (closeAll d st t) p = dursTotal d p + lookContrib st p t :=
  dursTotal_closeAll st d t p hnd

theorem getLast?_mem' {α : Type} : ∀ (l : List α) (m : α), l.getLast? = some m → m ∈ l := by
  intro l
  induction l with
  | nil => intro m h; cases h
  | cons a rest ih =>
    intro m h
    cases rest with
    | nil =>
      injection h with h
      exact h ▸ List.mem_cons_self a []
    | cons b rest' =>
      rw [List.getLast?_cons_cons] at h
      exact List.mem_cons_of_mem a (ih m h)

theorem pairwise_le_getLast? : ∀ (l : List Event),
    l.Pairwise (fun a b => timeD a ≤ timeD b) →
    ∀ m, l.getLast? = some m → ∀ y ∈ l, timeD y ≤ timeD m := by
  intro l
  induction l with
  | nil => intro _ m h; cases h
  | cons a rest ih =>
    intro hp m h y hy
    cases rest with
    | nil =>
      injection h with h
      rcases List.mem_cons.mp hy with hya | hya
      · rw [hya, ← h]
        exact le_refl _
      · cases hya
    | cons b rest' =>
      rw [List.getLast?_cons_cons] at h
      have hmem : m ∈ b :: rest' := getLast?_mem' _ m h
      rcases List.mem_cons.mp hy with hya | hya
      · exact hya ▸ (List.pairwise_cons.mp hp).1 m hmem
      · exact ih (List.pairwise_cons.mp hp).2 m h y hya

theorem sortTrack_pairwise (events : List Event) :
    (sortTrack events).Pairwise (fun a b => timeD a ≤ timeD b) :=
  List.sorted_insertionSort _ _

/-- The central tracker bound: over one match, a player's total accumulated
stint duration is at most the time span of the sorted filtered event
list. -/
theorem processMatch_dursTotal_le (events : List Event) (x : Event) (rest : List Event)
    (hL : sortTrack events = x :: rest) (m : Event)
    (hm : (x :: rest).getLast? = some m) (p : String) :
    dursTotal (processMatch [] events) p ≤ timeD m - timeD x := by
  have hpair : (x :: rest).Pairwise (fun a b => timeD a ≤ timeD b) := by
    rw [← hL]
    exact sortTrack_pairwise events
  have hlo : ∀ e ∈ x :: rest, timeD x ≤ timeD e := by
    intro e he
    rcases List.mem_cons.mp he with h | h
    · rw [h]
    · exact (List.pairwise_cons.mp hpair).1 e h
  have hhi : ∀ e ∈ x :: rest, timeD e ≤ timeD m :=
    pairwise_le_getLast? _ hpair m hm
  have hxm : timeD x ≤ timeD m := hhi x (List.mem_cons_self x rest)
  have hstart0 : ∀ q pos s, ([] : PosState).lookup q = some (pos, some s) → s ≤ timeD x := by
    intro q pos s h
    cases h
  have hfold := foldl_mu_bound (x :: rest) [] [] (timeD x) (timeD m)
    hpair hlo hhi hxm (by simp) hstart0
  have hndfold : (((x :: rest).foldl stepTrack (([] : Durs), ([] : PosState))).2.map
      Prod.fst).Nodup :=
    nodup_keys_foldl (x :: rest) [] [] (by simp)
  have hproc : processMatch [] events =
      closeAll ((x :: rest).foldl stepTrack ([], [])).1
        ((x :: rest).foldl stepTrack ([], [])).2 (timeD m) := by
    simp only [processMatch, hL, hm]
  rw [hproc]
  rw [dursTotal_closeAll_lc _ _ _ _ hndfold]
  have hmu := hfold.1 p
  have hmu0 : muF ([] : Durs) ([] : PosState) p (timeD x) = 0 := rfl
  rw [hmu0] at hmu
  rw [muF] at hmu
  rcases hl : ((x :: rest).foldl stepTrack (([] : Durs), ([] : PosState))).2.lookup p
    with _ | ⟨pos, os⟩
  · rw [lookContrib_of_none _ _ _ hl]
    rw [(openElapsed_of_lookup _ p (timeD m)).1 hl] at hmu
    omega
  · cases os with
    | none =>
      rw [lookContrib_of_some _ _ _ _ hl, contrib_none]
      rw [(openElapsed_of_lookup _ p (timeD m)).2.1 pos hl] at hmu
      omega
    | some s =>
      have hsle : s ≤ timeD m := hfold.2 p pos s hl
      rw [lookContrib_of_some _ _ _ _ hl, contrib_some]
      rw [(openElapsed_of_lookup _ p (timeD m)).2.2 pos s hl] at hmu
      by_cases hpos : 0 < timeD m - s
      · rw [if_pos hpos]
        omega
      · rw [if_neg hpos]
        omega

/-! Minutes-side facts for players without substitution or red-card
events. -/

theorem entryOf_of_no_subs (events : List Event) (player : String) (part : Int)
    (hsubs : subsOf events player = []) :
    entryOf events player part = periodStartOf events part := by
  rw [entryOf, sortedSubsOf, hsubs]
  rfl

theorem exitOf_of_no_subs_no_red (events : List Event) (player : String) (part : Int)
    (hsubs : subsOf events player = []) (hred : redOf events player = none) :
    exitOf events player part = periodEndOf events part := by
  have hout : outAfterOf events player part (entryOf events player part) = none := by
    rw [outAfterOf, sortedSubsOf, hsubs]
    rfl
  exact exitOf_val_noRed_noOut events player part hred hout

theorem halfMinutes_of_no_subs_no_red (events : List Event) (player : String) (part : Int)
    (hsubs : subsOf events player = []) (hred : redOf events player = none) :
    halfMinutes events player part =
      (if periodStartOf events part < periodEndOf events part then
        periodEndOf events part - periodStartOf events part
      else 0) := by
  rw [halfMinutes, entryOf_of_no_subs events player part hsubs,
    exitOf_of_no_subs_no_red events player part hsubs hred]

theorem halfMinutes_nonneg (events : List Event) (player : String) (part : Int) :
    0 ≤ halfMinutes events player part := by
  rw [halfMinutes]
  by_cases h : entryOf events player part < exitOf events player part
  · rw [if_pos h]
    linarith
  · rw [if_neg h]

/-- Claim C5 (amended): over a single match whose tracked events (position
updates, period markers, substitutions) all carry timestamps between the
derived half-1 period start and period end, and for a player with no
substitution events and no red-card event, the sum of that player's
accumulated PositionStint durations (milliseconds, across all positions)
never exceeds that player's total minutes played times 60000 — with no
tolerance needed. The unrestricted claim is false: red cards stop the
minutes clock but not the position stints (see the counterexample). -/
theorem C5_stints_bounded_by_minutes (events : List Event) (p : String)
    (hsubs : subsOf events p = [])
    (hred : redOf events p = none)
    (hbounds : ∀ e ∈ events, isTracked e = true →
      periodStartOf events 1 ≤ minuteD e ∧ minuteD e ≤ periodEndOf events 1) :
    (dursTotal (processMatch [] events) p : ℚ) ≤ calculate_player_minutes events p * 60000 := by
  have hm2 : 0 ≤ halfMinutes events p 2 := halfMinutes_nonneg events p 2
  have hm1eq := halfMinutes_of_no_subs_no_red events p 1 hsubs hred
  have hm1 : 0 ≤ halfMinutes events p 1 := halfMinutes_nonneg events p 1
  have htot : calculate_player_minutes events p =
      halfMinutes events p 1 + halfMinutes events p 2 := rfl
  rcases hL : sortTrack events with _ | ⟨x, rest⟩
  · have hempty : processMatch [] events = [] := by
      simp only [processMatch, hL]
      rfl
    rw [hempty]
    have hzero : dursTotal [] p = 0 := rfl
    rw [hzero]
    push_cast
    nlinarith
  · rcases hm : (x :: rest).getLast? with _ | m
    · rw [List.getLast?_eq_none_iff] at hm
      cases hm
    · have hbound := processMatch_dursTotal_le events x rest hL m hm p
      -- relate the sorted filtered list's end points to the period bounds
      have hperm : List.Perm (sortTrack events) (events.filter isTracked) :=
        List.perm_insertionSort _ _
      have hmemx : x ∈ events.filter isTracked := by
        rw [← hperm.mem_iff, hL]
        exact List.mem_cons_self x rest
      have hmemm : m ∈ events.filter isTracked := by
        rw [← hperm.mem_iff, hL]
        exact getLast?_mem' _ m hm
      have hx' := List.mem_filter.mp hmemx
      have hm' := List.mem_filter.mp hmemm
      have hbx := hbounds x hx'.1 hx'.2
      have hbm := hbounds m hm'.1 hm'.2
      set ps := periodStartOf events 1 with hps
      set pe := periodEndOf events 1 with hpe
      -- convert the Int bound to ℚ
      have hQ : (dursTotal (processMatch [] events) p : ℚ) ≤ (timeD m : ℚ) - (timeD x : ℚ) := by
        exact_mod_cast hbound
      have hminx : minuteD x = (timeD x : ℚ) / 60000 := minutesOfMs_eq _
      have hminm : minuteD m = (timeD m : ℚ) / 60000 := minutesOfMs_eq _
      rw [hminx] at hbx
      rw [hminm] at hbm
      have hxlow : ps * 60000 ≤ (timeD x : ℚ) := by
        have h1 := hbx.1
        rw [le_div_iff₀ (by norm_num : (0:ℚ) < 60000)] at h1
        exact h1
      have hmhigh : (timeD m : ℚ) ≤ pe * 60000 := by
        have h1 := hbm.2
        rw [div_le_iff₀ (by norm_num : (0:ℚ) < 60000)] at h1
        exact h1
      have hspan : (dursTotal (processMatch [] events) p : ℚ) ≤ (pe - ps) * 60000 := by
        nlinarith
      rw [htot]
      by_cases hlt : ps < pe
      · rw [hm1eq, if_pos hlt] at htot ⊢
        nlinarith
      · rw [hm1eq, if_neg hlt] at htot ⊢
        have hpele : pe ≤ ps := le_of_not_lt hlt
        nlinarith

/-- A match with a red card: period 1 runs 0–45 min, player `P` plays
centre-back from kick-off, is sent off at minute 10, and half 2 is an
empty period at minute 45. -/
def exC5 : List Event :=
  [{ baseTypeId := some 14, subTypeId := some 1400, partId := some 1,
     startTimeMs := some 0 },
   { baseTypeId := some 18, subTypeId := some 1800, playerName := some "P",
     positionTypeName := some "XX", startTimeMs := some 0 },
   { baseTypeId := some 15, subTypeId := some 1501, playerName := some "P",
     partId := some 1, startTimeMs := some 600000 },
   { baseTypeId := some 14, subTypeId := some 1401, partId := some 1,
     startTimeMs := some 2700000 },
   { baseTypeId := some 14, subTypeId := some 1400, partId := some 2,
     startTimeMs := some 2700000 },
   { baseTypeId := some 14, subTypeId := some 1401, partId := some 2,
     startTimeMs := some 2700000 }]

/-- Claim C5 (counterexample): with a red card at minute 10, the player's
minutes stop at 10 (600000 ms) but the position tracker — which ignores
card events — accumulates the full 45-minute half (2700000 ms) for the
stint, exceeding the claimed bound even with a one-second tolerance. -/
theorem C5_red_card_counterexample :
    dursTotal (processMatch [] exC5) "P" = 2700000
    ∧ calculate_player_minutes exC5 "P" = 10
    ∧ ¬((dursTotal (processMatch [] exC5) "P" : ℚ)
        ≤ calculate_player_minutes exC5 "P" * 60000 + 1000) := by
  have hdurs : dursTotal (processMatch [] exC5) "P" = 2700000 := by decide
  have he1 : entryOf exC5 "P" 1 = 0 := by decide
  have hx1 : exitOf exC5 "P" 1 = 10 := by decide
  have he2 : entryOf exC5 "P" 2 = 45 := by decide
  have hx2 : exitOf exC5 "P" 2 = 45 := by decide
  have hmin : calculate_player_minutes exC5 "P" = 10 := by
    rw [calculate_player_minutes, halfMinutes, halfMinutes, he1, hx1, he2, hx2]
    norm_num
  refine ⟨hdurs, hmin, ?_⟩
  rw [hdurs, hmin]
  norm_num

/-- A well-formed single-period match: period 1 from 0 to 45 minutes, one
position update for `P` at kick-off, no substitutions, no cards. -/
def exC5W : List Event :=
  [{ baseTypeId := some 14, subTypeId := some 1400, partId := some 1,
     startTimeMs := some 0 },
   { baseTypeId := some 18, subTypeId := some 1800, playerName := some "P",
     positionTypeName := some "XX", startTimeMs := some 0 },
   { baseTypeId := some 14, subTypeId := some 1401, partId := some 1,
     startTimeMs := some 2700000 }]

/-- Closed instance of the claim C5 theorem: on the well-formed match the
player's 2700000 ms of stints are within the 90 minutes (5400000 ms)
credited by the minutes reconstruction. -/
theorem C5_stints_bounded_by_minutes_witness :
    (dursTotal (processMatch [] exC5W) "P" : ℚ)
      ≤ calculate_player_minutes exC5W "P" * 60000 := by
  refine C5_stints_bounded_by_minutes exC5W "P" (by decide) (by decide) ?_
  intro e he htr
  fin_cases he <;> constructor <;> decide

/-! ### Metric Classifier (spec-modelled)

The Metric Classifier (spec §4.3) is not part of `src/playerstreamlit.py`;
its shot/goal branch is modelled below from the spec's words. -/

/-- The two score categories of the classifier. -/
inductive ScoreCategory
  | control
  | domination
deriving DecidableEq

/-- One weighted score contribution `(team, minute, value, category)`. -/
structure ScoreContribution where
  team : String
  minute : ℚ
  value : ℚ
  category : ScoreCategory
deriving DecidableEq

/-- A goal record `(team, minute)` attributed by the classifier. -/
structure GoalRecord where
  team : String
  minute : ℚ
deriving DecidableEq

/-- Modelled from the spec: the fixed named weight constants of §4.3
("all weights and zone thresholds are fixed named constants ... exposed as
configuration"). -/
structure ClassifierWeights where
  GOAL : ℚ
  XG_MULTIPLIER : ℚ
  onTarget : ℚ
  post : ℚ
  blocked : ℚ
  wide : ℚ

/-- Shot outcomes distinguished by the classifier's shot branch. -/
inductive ShotOutcome
  | goal
  | ownGoal
  | onTarget
  | post
  | blocked
  | wide
deriving DecidableEq

/-- Modelled from the spec: the shot/goal rules of the Metric Classifier
(§4.3), absent from `src/playerstreamlit.py`. A goal is a domination
contribution of `GOAL + xG × XG_MULTIPLIER` for the acting team with a
goal record for the acting team; an own goal is a domination contribution
of the fixed `GOAL` weight credited to the opposing team with the goal
record attributed to the opposing team; a non-goal shot is a domination
contribution keyed by the shot outcome plus `xG × XG_MULTIPLIER`. -/
def classifyShot (w : ClassifierWeights) (actingTeam opposingTeam : String)
    (minute xg : ℚ) : ShotOutcome → List ScoreContribution × Option GoalRecord
  | .goal => ([⟨actingTeam, minute, w.GOAL + xg * w.XG_MULTIPLIER, .domination⟩],
      some ⟨actingTeam, minute⟩)
  | .ownGoal => ([⟨opposingTeam, minute, w.GOAL, .domination⟩],
      some ⟨opposingTeam, minute⟩)
  | .onTarget => ([⟨actingTeam, minute, w.onTarget + xg * w.XG_MULTIPLIER, .domination⟩],
      none)
  | .post => ([⟨actingTeam, minute, w.post + xg * w.XG_MULTIPLIER, .domination⟩], none)
  | .blocked => ([⟨actingTeam, minute, w.blocked + xg * w.XG_MULTIPLIER, .domination⟩],
      none)
  | .wide => ([⟨actingTeam, minute, w.wide + xg * w.XG_MULTIPLIER, .domination⟩], none)

/-- Claim C7: an own-goal event committed by team `A` emits exactly one
domination ScoreContribution, of the fixed `GOAL` weight, credited to the
opposing team `B` — not to `A` — and the goal record is attributed to
`B`. -/
theorem C7_own_goal_credits_opponent (w : ClassifierWeights) (A B : String)
    (minute xg : ℚ) (hAB : A ≠ B) :
    (classifyShot w A B minute xg .ownGoal).1 = [⟨B, minute, w.GOAL, .domination⟩]
    ∧ (classifyShot w A B minute xg .ownGoal).2 = some ⟨B, minute⟩
    ∧ (∀ c ∈ (classifyShot w A B minute xg .ownGoal).1, c.team = B ∧ c.team ≠ A) := by
  refine ⟨rfl, rfl, fun c hc => ?_⟩
  have hc' : c = ⟨B, minute, w.GOAL, .domination⟩ := List.mem_singleton.mp hc
  subst hc'
  exact ⟨rfl, fun h => hAB h.symm⟩

/-- Closed instance of the claim C7 theorem: an own goal by `Ajax` at
minute 30 is credited to `PSV`. -/
theorem C7_own_goal_credits_opponent_witness :
    (classifyShot ⟨10, 5, 3, 2, 1, 1⟩ "Ajax" "PSV" 30 0 .ownGoal).1
      = [⟨"PSV", 30, (10 : ℚ), .domination⟩]
    ∧ (classifyShot ⟨10, 5, 3, 2, 1, 1⟩ "Ajax" "PSV" 30 0 .ownGoal).2
      = some ⟨"PSV", 30⟩ :=
  ⟨(C7_own_goal_credits_opponent ⟨10, 5, 3, 2, 1, 1⟩ "Ajax" "PSV" 30 0 (by decide)).1,
   (C7_own_goal_credits_opponent ⟨10, 5, 3, 2, 1, 1⟩ "Ajax" "PSV" 30 0 (by decide)).2.1⟩

end PlayerStreamlit
